/-
Verification of the Rapfi evaluation core against its specification.

The development shallowly embeds the three subsystems that the claims are
about:

* the transposition table (`hashtable.cpp`): entry encoding, `store`,
  `probe`, `resize`, `hashUsage`;
* the weight registry and loader stack (`weightloader.h`,
  `Mix8BinaryWeightLoader`, `StandardHeaderParserWarpper`);
* the Mix8 NNUE accumulator (`mix8nnue.cpp`): `clear`,
  `update<MOVE>` / `update<UNDO>`, and the evaluator's move cache.

Machine integers are modelled as mathematical integers with explicit
wrap-around: `int16_t` / `int32_t` values live in the subtypes `I16` / `I32`
of canonical representatives, `uint32_t` shape codes live in `ZMod (2 ^ 32)`,
and unsigned packing arithmetic is done on `Nat` with explicit `% 2 ^ k`.

Two-dimensional arrays that the C++ source indexes through a flattened
index (`innerIdx = x + y * boardSize`, `outerIdx = x + y * fullBoardSize`)
are modelled as functions of the two coordinates; every access performed by
the embedded code stays inside the rectangle on which the flattening is a
bijection, so the two views agree cell for cell.  Grow-only `std::vector`
stacks are modelled as lists with the most recent element at the head
(`push_back` = cons, `back` = head, `pop_back` = tail); loops that walk a
vector front to back therefore fold over the reversed list.

Declarations whose C++ definition is not part of the source excerpt (they
live in headers of which only callers are in the excerpt) carry a doc
comment starting with `Modelled from the spec:`.
-/
import Mathlib

set_option linter.unusedVariables false
set_option maxRecDepth 8000

/-! # Definitions -/

/-! ## Wrap-around integer arithmetic -/

/-- Centered wrap of an integer into `[-M, M)`; `cwrap 32768` is the
action of truncating to `int16_t`, `cwrap 2147483648` of truncating to
`int32_t`. -/
def cwrap (M z : Int) : Int := (z + M) % (2 * M) - M

/-- `int16_t` values: canonical representatives in `[-32768, 32768)`. -/
def I16 : Type := { z : Int // -32768 ≤ z ∧ z < 32768 }

instance : DecidableEq I16 := fun a b =>
  decidable_of_iff (a.val = b.val) Subtype.ext_iff.symm

/-- Truncate an integer to `int16_t`. -/
def wrap16 (z : Int) : I16 :=
  ⟨cwrap 32768 z, by
    unfold cwrap
    have h1 := Int.emod_nonneg (z + 32768) (by norm_num : (2 * 32768 : Int) ≠ 0)
    have h2 := Int.emod_lt_of_pos (z + 32768) (by norm_num : (0 : Int) < 2 * 32768)
    omega⟩

/-- `int32_t` values: canonical representatives in `[-2^31, 2^31)`. -/
def I32 : Type := { z : Int // -2147483648 ≤ z ∧ z < 2147483648 }

instance : DecidableEq I32 := fun a b =>
  decidable_of_iff (a.val = b.val) Subtype.ext_iff.symm

/-- Truncate an integer to `int32_t`. -/
def wrap32 (z : Int) : I32 :=
  ⟨cwrap 2147483648 z, by
    unfold cwrap
    have h1 := Int.emod_nonneg (z + 2147483648) (by norm_num : (2 * 2147483648 : Int) ≠ 0)
    have h2 := Int.emod_lt_of_pos (z + 2147483648) (by norm_num : (0 : Int) < 2 * 2147483648)
    omega⟩

def I16.zero : I16 := ⟨0, by norm_num⟩

def I32.zero : I32 := ⟨0, by norm_num⟩

instance : Inhabited I16 := ⟨I16.zero⟩

instance : Inhabited I32 := ⟨I32.zero⟩

/-- Wrapping lane-wise `int16_t` addition (SIMD `add_epi16`). -/
def add16 (a b : I16) : I16 := wrap16 (a.val + b.val)

/-- Wrapping lane-wise `int16_t` subtraction (SIMD `sub_epi16`). -/
def sub16 (a b : I16) : I16 := wrap16 (a.val - b.val)

/-- Lane-wise `int16_t` maximum (SIMD `max_epi16`). -/
def max16 (a b : I16) : I16 :=
  ⟨max a.val b.val, by
    have ha := a.property
    have hb := b.property
    constructor
    · exact le_max_of_le_left ha.1
    · exact max_lt ha.2 hb.2⟩

/-- SIMD `mulhrs_epi16`: `(a * b + 2^14) >> 15` truncated back to 16 bits
(the arithmetic right shift is floor division by `2^15`). -/
def mulhrs16 (a b : I16) : I16 := wrap16 ((a.val * b.val + 16384).fdiv 32768)

/-- Wrapping `int32_t` addition. -/
def add32 (a b : I32) : I32 := wrap32 (a.val + b.val)

/-- Wrapping `int32_t` subtraction. -/
def sub32 (a b : I32) : I32 := wrap32 (a.val - b.val)

/-- Widening conversion `int16_t → int32_t` (SIMD `cvtepi16_epi32`). -/
def widen (v : I16) : I32 :=
  ⟨v.val, by
    have h := v.property
    constructor <;> omega⟩

/-- `int32_t` ReLU (`max(v, 0)` on 32-bit lanes). -/
def relu32 (v : I32) : I32 :=
  ⟨max v.val 0, by
    have h := v.property
    constructor
    · omega
    · exact max_lt h.2 (by norm_num)⟩

/-! ## Transposition table (`hashtable.cpp`)

The `TTEntry` / `Bucket` declarations live in the missing `hashtable.h`;
their layout is modelled from the spec (§3 "Transposition entry", §4.4).
The operations `probe`, `store`, `resize`, `clear` and `hashUsage` are
translated from `hashtable.cpp`. -/

/-- Modelled from the spec: entries are packed to 16 bytes and a bucket is
one 64-byte cache line, so a bucket holds 4 entries. -/
abbrev ENTRIES_PER_BUCKET : Nat := 4

/-- Modelled from the spec: the depth offset named `DEPTH_LOWER_BOUND` in
§7 (its numeric value lives in a missing header; the claims hold for any
value, this one is fixed to keep the model executable). -/
abbrev DEPTH_LOWER_BOUND : Int := -2

/-- `Bound` enum `{NONE, UPPER, LOWER, EXACT}` packed in 2 bits; `EXACT`
is the last enumerator. -/
abbrev BOUND_EXACT : Nat := 3

/-- Modelled from the spec: the reserved `Pos::NONE` value in the 10-bit
move encoding. -/
abbrev POS_NONE : Nat := 0

/-- Modelled from the spec: lower end of the search value range. -/
abbrev VALUE_NONE : Int := -30002

/-- Modelled from the spec: upper end of the search value range. -/
abbrev VALUE_INFINITE : Int := 30001

/-- Modelled from the spec: threshold above which a value encodes a mate
distance and is stored relative to the current ply. -/
abbrev VALUE_MATE_IN_MAX_PLY : Int := 29000

instance : NeZero ENTRIES_PER_BUCKET := ⟨by decide⟩

/-- The 16-byte transposition entry
`key32 | value16 | eval16 | pvBoundBest16 | depth8 | generation8`
(layout modelled from the spec §3). -/
structure TTEntry where
  key32 : Nat
  value16 : Int
  eval16 : Int
  pvBoundBest16 : Nat
  depth8 : Nat
  generation8 : Nat
deriving DecidableEq

def TTEntry.zero : TTEntry :=
  { key32 := 0, value16 := 0, eval16 := 0, pvBoundBest16 := 0, depth8 := 0, generation8 := 0 }

instance : Inhabited TTEntry := ⟨TTEntry.zero⟩

/-- The two's-complement 16-bit byte pattern of an `int16_t` value. -/
def toU16 (z : Int) : Nat := (z % 65536).toNat

/-- Modelled from the spec: `data[0]`, the first 8-byte half of the
non-key fields (`value16`, `eval16`, `pvBoundBest16`, `depth8`). -/
def TTEntry.data0 (e : TTEntry) : Nat :=
  toU16 e.value16 ||| (toU16 e.eval16 <<< 16) |||
    ((e.pvBoundBest16 % 65536) <<< 32) ||| ((e.depth8 % 256) <<< 48)

/-- Modelled from the spec: `data[1]`, the second 8-byte half of the
non-key fields; `generation8` lives here (the probe refolds `key32` with
`data[1]` after bumping the generation). -/
def TTEntry.data1 (e : TTEntry) : Nat := e.generation8 % 256

/-- `TTEntry::key()`: the plain 32-bit key recovered from the stored
XOR-folded `key32` (spec §3: `key32 ^ data[0] ^ data[1]`, truncated to
32 bits). -/
def tteKey (e : TTEntry) : Nat := (e.key32 ^^^ e.data0 ^^^ e.data1) % 4294967296

/-- Modelled from the spec: `searchValueToStoredValue` — mate-distance
scores are stored relative to the current ply (the inverse of the load
transform, spec §4.4). -/
def searchValueToStoredValue (value ply : Int) : Int :=
  if VALUE_MATE_IN_MAX_PLY ≤ value then value + ply
  else if value ≤ -VALUE_MATE_IN_MAX_PLY then value - ply
  else value

/-- Modelled from the spec: `storedValueToSearchValue`, inverse of
`searchValueToStoredValue` at the same ply. -/
def storedValueToSearchValue (value ply : Int) : Int :=
  if VALUE_MATE_IN_MAX_PLY ≤ value then value - ply
  else if value ≤ -VALUE_MATE_IN_MAX_PLY then value + ply
  else value

/-- One cache-line bucket of the transposition table. -/
def TTBucket : Type := Fin ENTRIES_PER_BUCKET → TTEntry

/-- The bucket scan shared by `probe` and `store`: the first entry whose
recomputed key matches. -/
def probeFind (key32 : Nat) (b : TTBucket) : Option (Fin ENTRIES_PER_BUCKET) :=
  (List.finRange ENTRIES_PER_BUCKET).find? (fun i => decide (tteKey (b i) = key32))

/-- The outputs reported through `probe`'s reference parameters. -/
structure TTProbeRes where
  ttValue : Int
  ttEval : Int
  ttIsPv : Bool
  ttBound : Nat
  ttMove : Nat
  ttDepth : Int
deriving DecidableEq

/-- `HashTable::probe` restricted to the bucket selected by the hash: the
returned outputs (`none` for a miss) together with the mutated bucket
(generation bump plus `key32` refold on a hit). -/
def probeBucket (generation : Nat) (hashKey : Nat) (ply : Int) (b : TTBucket) :
    Option TTProbeRes × TTBucket :=
  let key32 := hashKey % 4294967296
  match probeFind key32 b with
  | none => (none, b)
  | some i =>
    let tte := b i
    let e1 : TTEntry := { tte with generation8 := generation % 256 }
    let e2 : TTEntry :=
      { e1 with key32 := (e1.key32 ^^^ ((tte.data1 ^^^ e1.data1) % 4294967296)) % 4294967296 }
    (some { ttValue := storedValueToSearchValue tte.value16 ply
            ttEval := tte.eval16
            ttIsPv := decide (tte.pvBoundBest16 >>> 15 ≠ 0)
            ttBound := (tte.pvBoundBest16 >>> 13) &&& 3
            ttMove := tte.pvBoundBest16 &&& 1023
            ttDepth := (tte.depth8 : Int) + DEPTH_LOWER_BOUND },
     Function.update b i e2)

/-- `store`'s replacement rank: `depth8 - int(generation - generation8)`
(lower is cheaper to evict). -/
def replaceValue (generation : Nat) (e : TTEntry) : Int :=
  (e.depth8 : Int) - (((generation % 256 : Nat) : Int) - (e.generation8 : Int))

/-- The least-`replaceValue` entry of a bucket, earliest index winning
ties (the scan starts at `entry[0]` and replaces only on strict `<`). -/
def minReplaceIdx (generation : Nat) (b : TTBucket) : Fin ENTRIES_PER_BUCKET :=
  (List.finRange ENTRIES_PER_BUCKET).foldl
    (fun cur i => if replaceValue generation (b i) < replaceValue generation (b cur) then i else cur)
    ⟨0, by decide⟩

/-- The replacement slot chosen by `HashTable::store`'s scan: the first
key-matching entry if one exists (the loop breaks there), otherwise the
least valuable entry. -/
def findReplaceIdx (generation key32 : Nat) (b : TTBucket) : Fin ENTRIES_PER_BUCKET :=
  match probeFind key32 b with
  | some i => i
  | none => minReplaceIdx generation b

/-- The record that `HashTable::store` writes: the fields are packed
from the arguments (with move retention when the new move is `NONE` and
the key matches the replaced entry), and `key32` is XOR-folded with the
two data words so the key check holds.  `packEntryFields` packs the
non-key fields; `ttNewEntry` adds move retention and the key fold. -/
def packEntryFields (generation : Nat) (value eval : Int) (isPv : Bool)
    (bound move1 : Nat) (depth ply : Int) : TTEntry :=
  { key32 := 0
    value16 := (wrap16 (searchValueToStoredValue value ply)).val
    eval16 := (wrap16 eval).val
    pvBoundBest16 :=
      (((if isPv then 1 else 0) <<< 15) ||| ((bound % 65536) <<< 13) ||| (move1 % 65536)) % 65536
    depth8 := ((depth - DEPTH_LOWER_BOUND) % 256).toNat
    generation8 := generation % 256 }

def ttNewEntry (generation newKey32 : Nat) (b : TTBucket) (value eval : Int)
    (isPv : Bool) (bound move : Nat) (depth ply : Int) : TTEntry :=
  let r := findReplaceIdx generation newKey32 b
  let oldKey32 := tteKey (b r)
  let move1 := if move = POS_NONE ∧ newKey32 = oldKey32 then (b r).pvBoundBest16 &&& 1023 else move
  let e0 : TTEntry := packEntryFields generation value eval isPv bound move1 depth ply
  { e0 with key32 := (newKey32 ^^^ e0.data0 ^^^ e0.data1) % 4294967296 }

/-- `HashTable::store` restricted to the bucket selected by the hash. -/
def storeBucket (generation : Nat) (b : TTBucket) (hashKey : Nat) (value eval : Int)
    (isPv : Bool) (bound move : Nat) (depth ply : Int) : TTBucket :=
  let newKey32 := hashKey % 4294967296
  let r := findReplaceIdx generation newKey32 b
  let oldKey32 := tteKey (b r)
  if bound ≠ BOUND_EXACT ∧ newKey32 = oldKey32 ∧
      depth + 2 < ((b r).depth8 : Int) + DEPTH_LOWER_BOUND then
    b
  else
    Function.update b r (ttNewEntry generation newKey32 b value eval isPv bound move depth ply)

/-- Modelled from the spec: a bucket occupies one 64-byte cache line. -/
abbrev sizeofBucket : Nat := 64

/-- The `HashTable` state: bucket count, 8-bit generation and the bucket
array (buckets beyond `numBuckets` are phantom). -/
structure HashTableState where
  numBuckets : Nat
  generation : Nat
  table : Nat → TTBucket

def zeroBucket : TTBucket := fun _ => TTEntry.zero

/-- `HashTable::clear()`: zero every bucket and reset the generation. -/
def hashTableClear (s : HashTableState) : HashTableState :=
  { s with table := fun _ => zeroBucket, generation := 0 }

/-- `HashTable::resize(hashSizeKB)`.  The derived bucket count is
`max(hashSizeKB * (1024 / sizeof(Bucket)), 1)`; if it differs from the
current count the table is reallocated (allocation modelled as
succeeding) and cleared, otherwise nothing at all happens. -/
def hashTableResize (s : HashTableState) (hashSizeKB : Nat) : HashTableState :=
  let newNumBuckets := max (hashSizeKB * (1024 / sizeofBucket)) 1
  if newNumBuckets ≠ s.numBuckets then
    hashTableClear { numBuckets := newNumBuckets, generation := s.generation,
                     table := fun _ => zeroBucket }
  else s

/-- `HashTable::hashUsage()`: permille of used entries over the first
`numBuckets >> 10` buckets, where used means `depth8 != 0` and the entry
generation equals the current one. -/
def hashUsage (s : HashTableState) : Nat :=
  let testCnt := s.numBuckets >>> 10
  let cnt :=
    (List.range testCnt).foldl
      (fun acc i =>
        (List.finRange ENTRIES_PER_BUCKET).foldl
          (fun acc2 j =>
            acc2 + (if (s.table i j).depth8 ≠ 0 ∧
                       (s.table i j).generation8 = s.generation % 256 then 1 else 0))
          acc)
      0
  cnt * 1000 / (ENTRIES_PER_BUCKET * testCnt)

/-- The count that the spec describes for `hashUsage`: the number of
sampled entries with nonzero stored depth and current generation, phrased
as a set cardinality independent of the loop structure. -/
def hashUsageSpecCount (s : HashTableState) : Nat :=
  (((Finset.range (s.numBuckets >>> 10)) ×ˢ (Finset.univ : Finset (Fin ENTRIES_PER_BUCKET))).filter
    (fun p => (s.table p.1 p.2).depth8 ≠ 0 ∧
              (s.table p.1 p.2).generation8 = s.generation % 256)).card

/-! ## Weight registry (`weightloader.h`) -/

/-- One pool entry of `WeightRegistry`: the path key, the owned weight
(identified by the allocation id `ptr`, which models pointer identity of
the `unique_ptr`), and the reference count. -/
structure RegistryEntry (W : Type) where
  filepath : String
  weight : W
  ptr : Nat
  refCount : Nat

/-- The `WeightRegistry` state: the pool plus the next fresh pointer
identity. -/
structure WeightRegistryState (W : Type) where
  pool : List (RegistryEntry W)
  nextPtr : Nat

def emptyRegistry (W : Type) : WeightRegistryState W := { pool := [], nextPtr := 0 }

/-- The pool scan of `loadWeightFromFile`: find the first entry with the
given path, increment its refcount in place, and return its pointer. -/
def poolIncFirst {W : Type} : List (RegistryEntry W) → String →
    Option (Nat × List (RegistryEntry W))
  | [], _ => none
  | e :: es, p =>
    if e.filepath = p then some (e.ptr, { e with refCount := e.refCount + 1 } :: es)
    else
      match poolIncFirst es p with
      | some (q, es') => some (q, e :: es')
      | none => none

/-- `WeightRegistry::loadWeightFromFile`.  Opening the file and running
the loader on its stream are abstracted into one environment function
`loaderLoad : path → Option W` (`none` covers both an unopenable file and
a loader failure).  Returns the resulting pointer (`none` = `nullptr`),
the new registry state, and whether the loader was invoked. -/
def loadWeightFromFile {W : Type} (loaderLoad : String → Option W) (filepath : String)
    (r : WeightRegistryState W) : Option Nat × WeightRegistryState W × Bool :=
  match poolIncFirst r.pool filepath with
  | some (q, pool') => (some q, { r with pool := pool' }, false)
  | none =>
    match loaderLoad filepath with
    | none => (none, r, true)
    | some w =>
      (some r.nextPtr,
       { pool := r.pool ++ [{ filepath := filepath, weight := w, ptr := r.nextPtr, refCount := 1 }],
         nextPtr := r.nextPtr + 1 },
       true)

/-- The pool scan of `unloadWeight`: find the first entry with the given
pointer, decrement its refcount, erase it when the count reaches zero. -/
def poolUnload {W : Type} : List (RegistryEntry W) → Nat → List (RegistryEntry W)
  | [], _ => []
  | e :: es, q =>
    if e.ptr = q then
      if e.refCount = 1 then es else { e with refCount := e.refCount - 1 } :: es
    else e :: poolUnload es q

/-- `WeightRegistry::unloadWeight`. -/
def unloadWeight {W : Type} (r : WeightRegistryState W) (q : Nat) : WeightRegistryState W :=
  { r with pool := poolUnload r.pool q }

/-! ## Weight loaders (`weightloader.h`, `Mix8BinaryWeightLoader`)

Streams are modelled at the granularity of scalar fields: one token per
scalar read, with a sticky fail bit as in `std::istream` (a failed read
yields zero-filled garbage; once failed, all subsequent reads fail). -/

structure IStream where
  toks : List Int
  failed : Bool
deriving DecidableEq

/-- `istream::read` of `n` scalar fields. -/
def readN (n : Nat) (s : IStream) : List Int × IStream :=
  if s.failed ∨ s.toks.length < n then (List.replicate n 0, { s with failed := true })
  else (s.toks.take n, { s with toks := s.toks.drop n })

/-- `istream::ignore` of `n` scalar fields. -/
def ignoreN (n : Nat) (s : IStream) : IStream := (readN n s).2

/-- `in && in.peek() == eof`: the stream is good and exactly at its
end. -/
def atEofOk (s : IStream) : Bool := !s.failed && s.toks.isEmpty

/-- The magic of the standard weight header,
`crc32("gomoku network weight version 1")`. -/
abbrev STANDARD_HEADER_MAGIC : Int := 0xacd8cc6a

/-- `StandardHeaderParserWarpper::parseRuleMask`:
bit 0 FREESTYLE (0), bit 1 STANDARD (1), bit 2 RENJU (2). -/
def parseRuleMask (ruleMask : Nat) : List Nat :=
  (if ruleMask &&& 1 ≠ 0 then [0] else []) ++
  (if ruleMask &&& 2 ≠ 0 then [1] else []) ++
  (if ruleMask &&& 4 ≠ 0 then [2] else [])

/-- `StandardHeaderParserWarpper::parseBoardSizeMask`: bit `i` set means
board size `i + 1` is supported. -/
def parseBoardSizeMask (m : Nat) : List Nat :=
  ((List.range 32).filter (fun i => (m >>> i) &&& 1 = 1)).map (· + 1)

/-- The parsed standard header handed to the validator. -/
structure StandardHeader where
  archHash : Int
  supportedRules : List Nat
  supportedBoardSizes : List Nat
  description : List Int

/-- The `StandardHeader` record built from the 5 raw header fields and
the description bytes, as handed to the validator. -/
def parsedStandardHeader (s : IStream) : StandardHeader :=
  let rh := readN 5 s
  { archHash := rh.1.getD 1 0
    supportedRules := parseRuleMask (rh.1.getD 2 0).toNat
    supportedBoardSizes := parseBoardSizeMask (rh.1.getD 3 0).toNat
    description := (readN (rh.1.getD 4 0).toNat rh.2).1 }

/-- The stream position after the raw header and the description (where
the wrapped loader starts reading). -/
def headerBodyStream (s : IStream) : IStream :=
  (readN ((readN 5 s).1.getD 4 0).toNat (readN 5 s).2).2

/-- `StandardHeaderParserWarpper::load`: read the 5-field raw header,
check the magic, read (or skip) the description, run the optional
validator, and only then delegate to the wrapped loader. -/
def standardHeaderLoad {W : Type} (validator : Option (StandardHeader → Bool))
    (baseLoad : IStream → Option W) (s : IStream) : Option W :=
  if (readN 5 s).1.getD 0 0 ≠ STANDARD_HEADER_MAGIC then none
  else
    match validator with
    | some v =>
      if v (parsedStandardHeader s) then baseLoad (headerBodyStream s)
      else none
    | none => baseLoad (headerBodyStream s)

/-- Element counts of the fixed-size reads of `Mix8BinaryWeightLoader`
(the array dimensions `ShapeNum`, `FeatureDim`, … are compile-time
constants of the missing `mix8nnue.h`; the model is parametric in
them). -/
structure Mix8Sizes where
  mappingLen : Nat
  preluLen : Nat
  dwWeightLen : Nat
  dwBiasLen : Nat
  padLen : Nat
  bucketLen : Nat

/-- The raw field contents read by `Mix8BinaryWeightLoader`. -/
structure Mix8RawWeight where
  mappingT : List Int
  preluT : List Int
  dwWeightT : List Int
  dwBiasT : List Int
  scaleAfterConv : Int
  scaleDirect : Int
  numHeadBuckets : Int
  bucketsT : List (List Int)
deriving DecidableEq

/-- The head-bucket loop of `Mix8BinaryWeightLoader::load`: buckets below
`numHeadBuckets` are read from the stream, the rest are zero-filled
(`memset`). -/
def mix8ReadBuckets (sz : Mix8Sizes) (maxNumBuckets : Nat) (nb : Int) (s : IStream) :
    List (List Int) × IStream :=
  (List.range maxNumBuckets).foldl
    (fun st i =>
      if (i : Int) < nb then
        let rb := readN sz.bucketLen st.2
        (st.1 ++ [rb.1], rb.2)
      else (st.1 ++ [List.replicate sz.bucketLen 0], st.2))
    ([], s)

/-- The stream position after the fixed-size part of the Mix8 body
(mapping, PReLU weight, DW-conv weight and bias, the two scales). -/
def mix8StreamAfterFixed (sz : Mix8Sizes) (s : IStream) : IStream :=
  (readN 1 (readN 1 (readN sz.dwBiasLen (readN sz.dwWeightLen
    (readN sz.preluLen (readN sz.mappingLen s).2).2).2).2).2).2

/-- The `num_head_buckets` field as read by `Mix8BinaryWeightLoader`. -/
def mix8NumHeadBuckets (sz : Mix8Sizes) (s : IStream) : Int :=
  ((readN 1 (mix8StreamAfterFixed sz s)).1).getD 0 0

/-- The stream position after the whole Mix8 weight body (used for the
final EOF check). -/
def mix8BodyEndStream (sz : Mix8Sizes) (maxNumBuckets : Nat) (s : IStream) : IStream :=
  (mix8ReadBuckets sz maxNumBuckets (mix8NumHeadBuckets sz s)
    (ignoreN sz.padLen (readN 1 (mix8StreamAfterFixed sz s)).2)).2

/-- `Mix8BinaryWeightLoader::load`: read the body arrays, reject
`num_head_buckets` outside `[1, MaxNumBuckets]`, skip the padding, read
the head buckets, and require the stream to be good and exactly at EOF. -/
def mix8BinaryLoad (sz : Mix8Sizes) (maxNumBuckets : Nat) (s : IStream) :
    Option Mix8RawWeight :=
  let rm := readN sz.mappingLen s
  let rp := readN sz.preluLen rm.2
  let rw := readN sz.dwWeightLen rp.2
  let rb := readN sz.dwBiasLen rw.2
  let rs1 := readN 1 rb.2
  let rs2 := readN 1 rs1.2
  let rnb := readN 1 rs2.2
  let nb := rnb.1.getD 0 0
  if nb < 1 ∨ (maxNumBuckets : Int) < nb then none
  else
    let s8 := ignoreN sz.padLen rnb.2
    let rbk := mix8ReadBuckets sz maxNumBuckets nb s8
    if atEofOk rbk.2 then
      some { mappingT := rm.1, preluT := rp.1, dwWeightT := rw.1, dwBiasT := rb.1
             scaleAfterConv := rs1.1.getD 0 0, scaleDirect := rs2.1.getD 0 0
             numHeadBuckets := nb, bucketsT := rbk.1 }
    else none

/-! ## Mix8 accumulator (`mix8nnue.cpp`)

Channel dimensions `FeatureDWConvDim ≤ FeatureDim` are compile-time
constants of the missing `mix8nnue.h`; the model is parametric in them
(`convDim`, `featDim`).  Per-channel SIMD loops are modelled pointwise:
a batch index `b < ConvB::NumBatch` corresponds to channels
`ch < convDim`, a batch `b ∈ [ConvB::NumBatch, FeatB::NumBatch)` to
channels `ch ∈ [convDim, featDim)`. -/

/-- The four line directions (`DX` in the source). -/
def DX : Fin 4 → Int := ![1, 0, 1, 1]

/-- The four line directions (`DY` in the source). -/
def DY : Fin 4 → Int := ![0, 1, 1, -1]

/-- The compile-time `Power3` table (`Power3[i] = 3^i`). -/
def Power3 (i : Nat) : Int := 3 ^ i

/-- The branch-free off-board test of `update`:
`(xi | (boardSize-1-xi) | yi | (boardSize-1-yi)) < 0` on two's-complement
ints. -/
def offBoardTest (boardSizeSub1 xi yi : Int) : Bool :=
  decide (Int.lor (Int.lor (Int.lor xi (boardSizeSub1 - xi)) yi) (boardSizeSub1 - yi) < 0)

/-- The per-cell per-direction shape table (`indexTable`; the source
flattens the cell as `innerIdx = x + y * boardSize`). -/
def ShapeTable : Type := Int → Int → Fin 4 → ZMod (2 ^ 32)

/-- `mapSum`: per-cell per-channel `int16` feature sums over the four
directions. -/
def MapSumTable : Type := Int → Int → Nat → I16

/-- `mapAfterDWConv`: per-outer-cell per-channel `int16` depth-wise conv
map (the source flattens the outer cell as
`outerIdx = x + y * fullBoardSize`; the played inner cell `(x, y)` maps
to outer `(x+1, y+1)`). -/
def ConvTable : Type := Int → Int → Nat → I16

/-- The fields of `Mix8Weight` used by the accumulator. -/
structure Mix8WeightModel where
  mapping : ZMod (2 ^ 32) → Nat → I16
  map_prelu_weight : Nat → I16
  feature_dwconv_weight : Nat → Nat → I16
  feature_dwconv_bias : Nat → I16

/-- `valueSum`: the global and the nine (3×3 board partition) grouped
`int32` accumulators. -/
structure ValueSumType where
  global : Nat → I32
  group : Nat → Nat → Nat → I32

instance : Inhabited ValueSumType :=
  ⟨{ global := fun _ => I32.zero, group := fun _ _ _ => I32.zero }⟩

/-- The mutable state of `Mix8Accumulator`. -/
structure Mix8AccState where
  indexTable : ShapeTable
  mapSum : MapSumTable
  mapAfterDWConv : ConvTable
  valueSum : ValueSumType

/-- The PReLU applied to `mapSum` lanes:
`max(x, mulhrs(x, map_prelu_weight))`. -/
def prelu (w : Mix8WeightModel) (v : I16) (ch : Nat) : I16 :=
  max16 v (mulhrs16 v (w.map_prelu_weight ch))

/-- Point update of the shape table. -/
def updShape (t : ShapeTable) (X Y : Int) (d : Fin 4) (v : ZMod (2 ^ 32)) : ShapeTable :=
  fun X' Y' d' => if X' = X ∧ Y' = Y ∧ d' = d then v else t X' Y' d'

/-- The offsets `dist ∈ [-5, 5]` scanned along each direction. -/
def distList : List Int := [-5, -4, -3, -2, -1, 0, 1, 2, 3, 4, 5]

/-- The `(dir, dist)` enumeration order of `update`'s shape loop
(`dir` outer, `dist` inner). -/
def changePoints : List (Fin 4 × Int) := (List.finRange 4).product distList

/-- The per-`(dir, dist)` shape-table key touched by `update`'s shape
loop: the cell coordinates and the direction. -/
def changeKey (x y : Int) (p : Fin 4 × Int) : Int × Int × Fin 4 :=
  (x - p.2 * DX p.1, y - p.2 * DY p.1, p.1)

/-- The recorded `OnePointChange` of `update` (the flattened `innerIdx`
is replaced by the cell coordinates). -/
structure OnePointChange where
  x : Int
  y : Int
  dir : Fin 4
  oldShape : ZMod (2 ^ 32)
  newShape : ZMod (2 ^ 32)
deriving DecidableEq

/-- One iteration of `update`'s shape loop: skip off-board cells via the
branch-free test, otherwise bump the shape entry by
`dPower3 * Power3[dist + 5]` (in `uint32` arithmetic) and record the
change. -/
def shapeStep (boardSize : Nat) (dPower3 : Int) (x y : Int)
    (st : ShapeTable × List OnePointChange) (p : Fin 4 × Int) :
    ShapeTable × List OnePointChange :=
  let xi := x - p.2 * DX p.1
  let yi := y - p.2 * DY p.1
  if offBoardTest ((boardSize : Int) - 1) xi yi then st
  else
    let oldShape := st.1 xi yi p.1
    let newShape := oldShape + ((dPower3 * Power3 (p.2 + 5).toNat : Int) : ZMod (2 ^ 32))
    (updShape st.1 xi yi p.1 newShape, st.2 ++ [⟨xi, yi, p.1, oldShape, newShape⟩])

/-- `update`'s first loop: update the shape table over all
`(dir, dist)` pairs and record the changes in order. -/
def recordChanges (boardSize : Nat) (dPower3 : Int) (x y : Int) (t : ShapeTable) :
    ShapeTable × List OnePointChange :=
  changePoints.foldl (shapeStep boardSize dPower3 x y) (t, [])

/-- `groupIndex`: the 3-way partition of a board axis. -/
def groupIndex (boardSize : Nat) (i : Int) : Nat :=
  let size1 : Int := (boardSize : Int) / 3 + (if (boardSize : Int) % 3 = 2 then 1 else 0)
  let size2 : Int := ((boardSize : Int) / 3) * 2 + (if 0 < (boardSize : Int) % 3 then 1 else 0)
  (if size1 ≤ i then 1 else 0) + (if size2 ≤ i then 1 else 0)

/-- One iteration of `update`'s incremental loop over the recorded
changes: recompute `mapSum` at the changed cell, fold the old PReLU'd
feature out of and the new one into the nine surrounding
`mapAfterDWConv` cells (the change at `(x, y)` writes outer cells
`(x+dx, y+dy)` for `dx, dy ∈ [0,2]` with weight row `8 - dy*3 - dx`;
stated as a function of the written cell, `dx = X - x`, `dy = Y - y`),
and on the MOVE path update the high value channels. -/
def chainStep (w : Mix8WeightModel) (convDim featDim : Nat) (isMove : Bool)
    (gIdx : Int → Nat) (st : MapSumTable × ConvTable × ValueSumType) (c : OnePointChange) :
    MapSumTable × ConvTable × ValueSumType :=
  let ms := st.1
  let cv := st.2.1
  let vs := st.2.2
  let oldFeats : Nat → I16 := fun ch => prelu w (ms c.x c.y ch) ch
  let newMapSum : Nat → I16 := fun ch =>
    add16 (sub16 (ms c.x c.y ch) (w.mapping c.oldShape ch)) (w.mapping c.newShape ch)
  let newFeats : Nat → I16 := fun ch => prelu w (newMapSum ch) ch
  let ms' : MapSumTable := fun X Y ch =>
    if X = c.x ∧ Y = c.y then newMapSum ch else ms X Y ch
  let cv' : ConvTable := fun X Y ch =>
    if c.x ≤ X ∧ X ≤ c.x + 2 ∧ c.y ≤ Y ∧ Y ≤ c.y + 2 ∧ ch < convDim then
      add16
        (sub16 (cv X Y ch)
          (mulhrs16 (oldFeats ch) (w.feature_dwconv_weight ((8 - (Y - c.y) * 3 - (X - c.x)).toNat) ch)))
        (mulhrs16 (newFeats ch) (w.feature_dwconv_weight ((8 - (Y - c.y) * 3 - (X - c.x)).toNat) ch))
    else cv X Y ch
  let vs' : ValueSumType :=
    if isMove then
      { global := fun ch =>
          if convDim ≤ ch ∧ ch < featDim then
            add32 (sub32 (vs.global ch) (widen (oldFeats ch))) (widen (newFeats ch))
          else vs.global ch
        group := fun a b ch =>
          if a = gIdx c.y ∧ b = gIdx c.x ∧ convDim ≤ ch ∧ ch < featDim then
            add32 (sub32 (vs.group a b ch) (widen (oldFeats ch))) (widen (newFeats ch))
          else vs.group a b ch }
    else vs
  (ms', cv', vs')

/-- `update`'s incremental loop over the recorded changes. -/
def applyChanges (w : Mix8WeightModel) (convDim featDim : Nat) (isMove : Bool)
    (gIdx : Int → Nat) (cs : List OnePointChange)
    (st : MapSumTable × ConvTable × ValueSumType) : MapSumTable × ConvTable × ValueSumType :=
  cs.foldl (chainStep w convDim featDim isMove gIdx) st

/-- A change with its shape codes swapped (what `update<UNDO>` records
after the matching `update<MOVE>`). -/
def swapChange (c : OnePointChange) : OnePointChange :=
  { c with oldShape := c.newShape, newShape := c.oldShape }

/-- The net `mapSum` delta (as an unwrapped integer) contributed to cell
`(X, Y)` by a change list: `Σ mapping[new] - mapping[old]` over the
changes at that cell. -/
def msDelta (w : Mix8WeightModel) : List OnePointChange → Int → Int → Nat → Int
  | [], _, _, _ => 0
  | c :: cs, X, Y, ch =>
    (if c.x = X ∧ c.y = Y then (w.mapping c.newShape ch).val - (w.mapping c.oldShape ch).val
     else 0) + msDelta w cs X Y ch

/-- The nine `(dx, dy)` stencil offsets of the 3×3 depth-wise conv. -/
def off9 : List (Int × Int) :=
  [(0, 0), (1, 0), (2, 0), (0, 1), (1, 1), (2, 1), (0, 2), (1, 2), (2, 2)]

/-- Whether the change list touches the `mapSum` cell `(X, Y)`. -/
def cellIn (cs : List OnePointChange) (X Y : Int) : Bool :=
  cs.any (fun c => decide (c.x = X ∧ c.y = Y))

/-- The conv contribution of the PReLU'd `mapSum` value `v` of the cell
at stencil offset `(dx, dy)` (weight row `8 - dy*3 - dx`). -/
def stencilF (w : Mix8WeightModel) (v : I16) (dx dy : Int) (ch : Nat) : Int :=
  (mulhrs16 (prelu w v ch) (w.feature_dwconv_weight ((8 - dy * 3 - dx).toNat) ch)).val

/-- The net `mapAfterDWConv` delta (as an unwrapped integer) at outer
cell `(X, Y)`: over the nine stencil offsets, the telescoped difference
of the conv contributions of the final and initial `mapSum` values of
the source cell, when that cell is touched by the change list. -/
def convDelta (w : Mix8WeightModel) (ms ms' : MapSumTable) (cs : List OnePointChange)
    (X Y : Int) (ch : Nat) : Int :=
  (off9.map (fun o =>
    if cellIn cs (X - o.1) (Y - o.2) then
      stencilF w (ms' (X - o.1) (Y - o.2) ch) o.1 o.2 ch -
        stencilF w (ms (X - o.1) (Y - o.2) ch) o.1 o.2 ch
    else 0)).sum

/-- The conv-dirty rectangle bounds of the MOVE path, in outer
coordinates: `x0 = max(x - 6 + 1, 1)`. -/
def rectLo (x : Int) : Int := max (x - 6 + 1) 1

/-- `x1 = min(x + 6 + 1, boardSize)`. -/
def rectHi (boardSize : Nat) (x : Int) : Int := min (x + 6 + 1) (boardSize : Int)

/-- The integers from `lo` to `hi` inclusive. -/
def intRange (lo hi : Int) : List Int :=
  (List.range (hi + 1 - lo).toNat).map (fun k : Nat => lo + (k : Int))

/-- The outer cells `(xi, yi)` of the conv-dirty rectangle, in the
iteration order of the source (`yi` outer loop). -/
def rectCells (boardSize : Nat) (x y : Int) : List (Int × Int) :=
  (intRange (rectLo y) (rectHi boardSize y)).flatMap
    (fun yi => (intRange (rectLo x) (rectHi boardSize x)).map (fun xi => (xi, yi)))

/-- One rectangle cell of the MOVE path's value-feature pass: the ReLU'd
conv features (channels `< convDim`), widened to `int32`, are subtracted
from (before the incremental loop) or added to (after it) the global sum
and the group sum of the cell. -/
def rectVsStep (isSub : Bool) (boardSize convDim : Nat) (cv : ConvTable)
    (vs : ValueSumType) (cell : Int × Int) : ValueSumType :=
  let gi := groupIndex boardSize (cell.2 - 1)
  let gj := groupIndex boardSize (cell.1 - 1)
  let contrib : Nat → I32 := fun ch => widen (max16 (cv cell.1 cell.2 ch) I16.zero)
  { global := fun ch =>
      if ch < convDim then
        if isSub then sub32 (vs.global ch) (contrib ch) else add32 (vs.global ch) (contrib ch)
      else vs.global ch
    group := fun a b ch =>
      if a = gi ∧ b = gj ∧ ch < convDim then
        if isSub then sub32 (vs.group a b ch) (contrib ch) else add32 (vs.group a b ch) (contrib ch)
      else vs.group a b ch }

/-- The MOVE path's subtract (`isSub = true`) / re-add (`isSub = false`)
pass over the conv-dirty rectangle. -/
def rectPass (isSub : Bool) (boardSize convDim : Nat) (x y : Int) (cv : ConvTable)
    (vs : ValueSumType) : ValueSumType :=
  (rectCells boardSize x y).foldl (rectVsStep isSub boardSize convDim cv) vs

/-- `Mix8Accumulator::update<MOVE>` for a piece of colour index
`pieceColor` (`BLACK = 0`, `WHITE = 1`) at `(x, y)`:
`dPower3 = pieceColor + 1`. -/
def Mix8AccState.updateMove (w : Mix8WeightModel) (convDim featDim boardSize : Nat)
    (pieceColor : Int) (x y : Int) (a : Mix8AccState) : Mix8AccState :=
  let vs1 := rectPass true boardSize convDim x y a.mapAfterDWConv a.valueSum
  let rc := recordChanges boardSize (pieceColor + 1) x y a.indexTable
  let st := applyChanges w convDim featDim true (groupIndex boardSize) rc.2
    (a.mapSum, a.mapAfterDWConv, vs1)
  let vs3 := rectPass false boardSize convDim x y st.2.1 st.2.2
  { indexTable := rc.1, mapSum := st.1, mapAfterDWConv := st.2.1, valueSum := vs3 }

/-- `Mix8Accumulator::update<UNDO>`: `dPower3 = -1 - pieceColor`, no
rectangle passes, and `valueSum` is copied verbatim from the caller's
snapshot. -/
def Mix8AccState.updateUndo (w : Mix8WeightModel) (convDim featDim boardSize : Nat)
    (pieceColor : Int) (x y : Int) (backup : ValueSumType) (a : Mix8AccState) : Mix8AccState :=
  let rc := recordChanges boardSize (-1 - pieceColor) x y a.indexTable
  let st := applyChanges w convDim featDim false (groupIndex boardSize) rc.2
    (a.mapSum, a.mapAfterDWConv, a.valueSum)
  { indexTable := rc.1, mapSum := st.1, mapAfterDWConv := st.2.1, valueSum := backup }

/-- The partial sum `Σ_{j < thick} Power3[11 - j]` of
`initIndexTable`'s first pass. -/
def powSumA (thick : Nat) : Int :=
  (List.range thick).foldl (fun acc j => acc + Power3 (11 - j)) 0

/-- The partial sum `2 * Power3[11] + Σ_{j < thick - 1} Power3[j]` of
`initIndexTable`'s second pass. -/
def powSumB (thick : Nat) : Int :=
  (List.range (thick - 1)).foldl (fun acc j => acc + Power3 j) (2 * Power3 11)

/-- The value `3 * Power3[11] + Σ_{i < a-1} Power3[10-i] + Σ_{i < b-1} Power3[i]`
of `initIndexTable`'s third pass. -/
def powSumC (a b : Nat) : Int :=
  (List.range (b - 1)).foldl (fun acc i => acc + Power3 i)
    ((List.range (a - 1)).foldl (fun acc i => acc + Power3 (10 - i)) (3 * Power3 11))

/-- The `thick`/`a`/`b` range `1..5` of `initIndexTable`. -/
def thickList : List Nat := [1, 2, 3, 4, 5]

/-- The axis range `0..boardSize-1` as integers. -/
def idxList (boardSize : Nat) : List Int :=
  (List.range boardSize).map (fun i => (i : Int))

/-- First write pass of `initIndexTable` (right/bottom walls). -/
def initPassA (boardSize : Nat) (t0 : ShapeTable) : ShapeTable :=
  thickList.foldl
    (fun t thick =>
      (idxList boardSize).foldl
        (fun t i =>
          let bsI := (boardSize : Int)
          let c : ZMod (2 ^ 32) := ((powSumA thick : Int) : ZMod (2 ^ 32))
          let t1 := updShape t (bsI - 6 + (thick : Int)) i 0 c
          let t2 := updShape t1 i (bsI - 6 + (thick : Int)) 1 c
          let t3 := updShape t2 (bsI - 6 + (thick : Int)) i 2 c
          let t4 := updShape t3 i (bsI - 6 + (thick : Int)) 2 c
          let t5 := updShape t4 (bsI - 6 + (thick : Int)) i 3 c
          updShape t5 i (6 - 1 - (thick : Int)) 3 c)
        t)
    t0

/-- Second write pass of `initIndexTable` (left/top walls). -/
def initPassB (boardSize : Nat) (t0 : ShapeTable) : ShapeTable :=
  thickList.foldl
    (fun t thick =>
      (idxList boardSize).foldl
        (fun t i =>
          let bsI := (boardSize : Int)
          let c : ZMod (2 ^ 32) := ((powSumB thick : Int) : ZMod (2 ^ 32))
          let t1 := updShape t (6 - 1 - (thick : Int)) i 0 c
          let t2 := updShape t1 i (6 - 1 - (thick : Int)) 1 c
          let t3 := updShape t2 (6 - 1 - (thick : Int)) i 2 c
          let t4 := updShape t3 i (6 - 1 - (thick : Int)) 2 c
          let t5 := updShape t4 (6 - 1 - (thick : Int)) i 3 c
          updShape t5 i (bsI - 6 + (thick : Int)) 3 c)
        t)
    t0

/-- Third write pass of `initIndexTable` (diagonal corners). -/
def initPassC (boardSize : Nat) (t0 : ShapeTable) : ShapeTable :=
  thickList.foldl
    (fun t a =>
      thickList.foldl
        (fun t b =>
          let bsI := (boardSize : Int)
          let c : ZMod (2 ^ 32) := ((powSumC a b : Int) : ZMod (2 ^ 32))
          let t1 := updShape t (bsI - 6 + (a : Int)) (5 - (b : Int)) 2 c
          let t2 := updShape t1 (5 - (b : Int)) (bsI - 6 + (a : Int)) 2 c
          let t3 := updShape t2 (5 - (b : Int)) (5 - (a : Int)) 3 c
          updShape t3 (bsI - 6 + (a : Int)) (bsI - 6 + (b : Int)) 3 c)
        t)
    t0

/-- `Mix8Accumulator::initIndexTable`: zero the table, then the three
border write passes. -/
def initIndexTable (boardSize : Nat) : ShapeTable :=
  initPassC boardSize (initPassB boardSize (initPassA boardSize (fun _ _ _ => 0)))

/-- The board cells in the iteration order of `clear` (`y` outer). -/
def cellList (boardSize : Nat) : List (Int × Int) :=
  (List.range boardSize).flatMap
    (fun y => (List.range boardSize).map (fun x => ((x : Int), (y : Int))))

/-- `clear`'s per-cell `mapSum`: the sum over the four direction
mappings. -/
def mapSumAt (w : Mix8WeightModel) (t : ShapeTable) (x y : Int) : Nat → I16 :=
  fun ch => (List.finRange 4).foldl (fun acc d => add16 acc (w.mapping (t x y d) ch)) I16.zero

/-- One cell of `clear`'s first pass: store `mapSum`, fold the PReLU'd
features into the nine surrounding conv cells (channels `< convDim`),
and add the widened high channels into the value sums. -/
def clearPass1Step (w : Mix8WeightModel) (convDim featDim boardSize : Nat) (t : ShapeTable)
    (st : MapSumTable × ConvTable × ValueSumType) (cell : Int × Int) :
    MapSumTable × ConvTable × ValueSumType :=
  let feats : Nat → I16 := fun ch => prelu w (mapSumAt w t cell.1 cell.2 ch) ch
  let ms' : MapSumTable := fun X Y ch =>
    if X = cell.1 ∧ Y = cell.2 then mapSumAt w t cell.1 cell.2 ch else st.1 X Y ch
  let cv' : ConvTable := fun X Y ch =>
    if cell.1 ≤ X ∧ X ≤ cell.1 + 2 ∧ cell.2 ≤ Y ∧ Y ≤ cell.2 + 2 ∧ ch < convDim then
      add16 (st.2.1 X Y ch)
        (mulhrs16 (feats ch)
          (w.feature_dwconv_weight ((8 - (Y - cell.2) * 3 - (X - cell.1)).toNat) ch))
    else st.2.1 X Y ch
  let gi := groupIndex boardSize cell.2
  let gj := groupIndex boardSize cell.1
  let vs := st.2.2
  let vs' : ValueSumType :=
    { global := fun ch =>
        if convDim ≤ ch ∧ ch < featDim then add32 (vs.global ch) (widen (feats ch))
        else vs.global ch
      group := fun a b ch =>
        if a = gi ∧ b = gj ∧ convDim ≤ ch ∧ ch < featDim then
          add32 (vs.group a b ch) (widen (feats ch))
        else vs.group a b ch }
  (ms', cv', vs')

/-- One cell of `clear`'s second pass: add the ReLU'd conv features of
the cell's outer image `(x+1, y+1)` (widened to `int32`, channels
`< convDim`) into the value sums. -/
def clearPass2Step (boardSize convDim : Nat) (cv : ConvTable)
    (vs : ValueSumType) (cell : Int × Int) : ValueSumType :=
  let gi := groupIndex boardSize cell.2
  let gj := groupIndex boardSize cell.1
  let contrib : Nat → I32 := fun ch => relu32 (widen (cv (cell.1 + 1) (cell.2 + 1) ch))
  { global := fun ch =>
      if ch < convDim then add32 (vs.global ch) (contrib ch) else vs.global ch
    group := fun a b ch =>
      if a = gi ∧ b = gj ∧ ch < convDim then add32 (vs.group a b ch) (contrib ch)
      else vs.group a b ch }

/-- `Mix8Accumulator::clear`: init the shape table, set every conv cell
to the DW-conv bias, zero the value sums, then the two accumulation
passes. -/
def Mix8AccState.clear (w : Mix8WeightModel) (convDim featDim boardSize : Nat) : Mix8AccState :=
  let t := initIndexTable boardSize
  let ms0 : MapSumTable := fun _ _ _ => I16.zero
  let cv0 : ConvTable := fun _ _ ch => w.feature_dwconv_bias ch
  let vs0 : ValueSumType := { global := fun _ => I32.zero, group := fun _ _ _ => I32.zero }
  let st1 := (cellList boardSize).foldl (clearPass1Step w convDim featDim boardSize t)
    (ms0, cv0, vs0)
  let vs2 := (cellList boardSize).foldl (clearPass2Step boardSize convDim st1.2.1) st1.2.2
  { indexTable := t, mapSum := st1.1, mapAfterDWConv := st1.2.1, valueSum := vs2 }

/-! ## Mix8 evaluator move cache (`Mix8Evaluator`) -/

/-- The `Color` enum; the order matches the source's `opponentMap`
indexing (`BLACK = 0`, `WHITE = 1`, `WALL = 2`, `EMPTY = 3`). -/
inductive GColor where
  | BLACK
  | WHITE
  | WALL
  | EMPTY
deriving DecidableEq

/-- The numeric value of a `Color` enumerator. -/
def colorIdx : GColor → Int
  | .BLACK => 0
  | .WHITE => 1
  | .WALL => 2
  | .EMPTY => 3

/-- `clearCache`'s `opponentMap = {WHITE, BLACK, WALL, EMPTY}`. -/
def opponentMap : GColor → GColor
  | .BLACK => .WHITE
  | .WHITE => .BLACK
  | .WALL => .WALL
  | .EMPTY => .EMPTY

/-- A deferred move-cache entry. -/
structure MoveCacheEntry where
  oldColor : GColor
  newColor : GColor
  x : Int
  y : Int
deriving DecidableEq

/-- Modelled from the spec: `isContraryMove` — `(A, B)` is contrary to
`(A', B')` at the same `(x, y)` iff `A = B'` and `B = A'`. -/
def isContraryMove (a b : MoveCacheEntry) : Bool :=
  decide (a.oldColor = b.newColor ∧ a.newColor = b.oldColor ∧ a.x = b.x ∧ a.y = b.y)

/-- The per-side body of `addCache`: push the new entry unless it is
contrary to the cache tail, in which case the tail is popped (caches are
lists with the most recent entry at the head). -/
def cachePush (l : List MoveCacheEntry) (mc : MoveCacheEntry) : List MoveCacheEntry :=
  match l with
  | [] => [mc]
  | b :: rest => if isContraryMove mc b then rest else mc :: b :: rest

/-- `Mix8Evaluator::addCache`: build the entry (`{EMPTY, side}` for a
move, `{side, EMPTY}` for an undo) and insert it into both side
caches. -/
def addCache (side : GColor) (x y : Int) (isUndo : Bool)
    (st : List MoveCacheEntry × List MoveCacheEntry) :
    List MoveCacheEntry × List MoveCacheEntry :=
  let oldColor := if isUndo then side else GColor.EMPTY
  let newColor := if isUndo then GColor.EMPTY else side
  let mc : MoveCacheEntry := { oldColor := oldColor, newColor := newColor, x := x, y := y }
  (cachePush st.1 mc, cachePush st.2 mc)

/-- One drained entry of `Mix8Evaluator::clearCache`: map the colours
through `opponentMap` for the WHITE accumulator, then either a MOVE
update (pushing a `valueSum` snapshot) or an UNDO update (restoring and
popping the snapshot). -/
def clearCacheStep (w : Mix8WeightModel) (convDim featDim boardSize : Nat) (side : GColor)
    (st : Mix8AccState × List ValueSumType) (mc0 : MoveCacheEntry) :
    Mix8AccState × List ValueSumType :=
  let mc := if side = GColor.WHITE then
      { mc0 with oldColor := opponentMap mc0.oldColor, newColor := opponentMap mc0.newColor }
    else mc0
  if mc.oldColor = GColor.EMPTY then
    (st.1.updateMove w convDim featDim boardSize (colorIdx mc.newColor) mc.x mc.y,
     st.1.valueSum :: st.2)
  else
    (st.1.updateUndo w convDim featDim boardSize (colorIdx mc.oldColor) mc.x mc.y st.2.headI,
     st.2.tail)

/-- `Mix8Evaluator::clearCache(side)`: drain the side's cache in
insertion order (the cache list is newest-first, hence the reverse). -/
def clearCacheDrain (w : Mix8WeightModel) (convDim featDim boardSize : Nat) (side : GColor)
    (cache : List MoveCacheEntry) (acc : Mix8AccState) (hist : List ValueSumType) :
    Mix8AccState × List ValueSumType :=
  cache.reverse.foldl (clearCacheStep w convDim featDim boardSize side) (acc, hist)

/-- One MOVE of the round-trip scenario: push the `valueSum` snapshot
(as `clearCache` does) and apply `update<MOVE>`. -/
def moveStep (w : Mix8WeightModel) (convDim featDim boardSize : Nat)
    (st : Mix8AccState × List ValueSumType) (m : GColor × Int × Int) :
    Mix8AccState × List ValueSumType :=
  (st.1.updateMove w convDim featDim boardSize (colorIdx m.1) m.2.1 m.2.2,
   st.1.valueSum :: st.2)

/-- One UNDO of the round-trip scenario: apply `update<UNDO>` with the
top snapshot and pop it. -/
def undoStep (w : Mix8WeightModel) (convDim featDim boardSize : Nat)
    (st : Mix8AccState × List ValueSumType) (m : GColor × Int × Int) :
    Mix8AccState × List ValueSumType :=
  (st.1.updateUndo w convDim featDim boardSize (colorIdx m.1) m.2.1 m.2.2 st.2.headI,
   st.2.tail)

/-- Apply a sequence of MOVE updates. -/
def playMoves (w : Mix8WeightModel) (convDim featDim boardSize : Nat)
    (ms : List (GColor × Int × Int)) (st : Mix8AccState × List ValueSumType) :
    Mix8AccState × List ValueSumType :=
  ms.foldl (moveStep w convDim featDim boardSize) st

/-- Apply the matching UNDO updates in reverse order. -/
def undoMoves (w : Mix8WeightModel) (convDim featDim boardSize : Nat)
    (ms : List (GColor × Int × Int)) (st : Mix8AccState × List ValueSumType) :
    Mix8AccState × List ValueSumType :=
  ms.reverse.foldl (undoStep w convDim featDim boardSize) st

/-- The conv-dirty rectangle as the spec's sentence for C3 words it
(definition follows the spec's words, for comparison with the code's
`rectCells`): `[x-5, x+5] × [y-5, y+5]` clipped to the board halo
(outer coordinates `0 .. boardSize+1`). -/
def specDirtyRect (boardSize : Nat) (x y X Y : Int) : Prop :=
  max (x - 5) 0 ≤ X ∧ X ≤ min (x + 5) ((boardSize : Int) + 1) ∧
  max (y - 5) 0 ≤ Y ∧ Y ≤ min (y + 5) ((boardSize : Int) + 1)

instance (boardSize : Nat) (x y X Y : Int) :
    Decidable (specDirtyRect boardSize x y X Y) := by
  unfold specDirtyRect
  infer_instance

/-! # Theorems -/

/-! ## Wrap arithmetic lemmas -/

theorem cwrap_eq_self (M z : Int) (h1 : -M ≤ z) (h2 : z < M) : cwrap M z = z := by
  unfold cwrap
  rw [Int.emod_eq_of_lt (by omega) (by omega)]
  omega

theorem cwrap_congr (M z1 z2 : Int) (h : (2 * M) ∣ (z1 - z2)) :
    cwrap M z1 = cwrap M z2 := by
  unfold cwrap
  have heq : (z1 + M) % (2 * M) = (z2 + M) % (2 * M) := by
    have : z1 + M ≡ z2 + M [ZMOD (2 * M)] :=
      Int.ModEq.symm (Int.modEq_iff_dvd.mpr (by
        obtain ⟨k, hk⟩ := h
        exact ⟨k, by omega⟩))
    exact this
  omega

theorem wrap16_val (a : I16) : wrap16 a.val = a := by
  apply Subtype.ext
  exact cwrap_eq_self _ _ a.property.1 a.property.2

theorem wrap16_congr (z1 z2 : Int) (h : (65536 : Int) ∣ (z1 - z2)) :
    wrap16 z1 = wrap16 z2 := by
  apply Subtype.ext
  exact cwrap_congr 32768 z1 z2 (by
    obtain ⟨k, hk⟩ := h
    exact ⟨k, by omega⟩)

theorem wrap16_val_sub_dvd (z : Int) : (65536 : Int) ∣ ((wrap16 z).val - z) := by
  have h : (wrap16 z).val - z = 2 * 32768 * (-((z + 32768) / (2 * 32768))) := by
    show cwrap 32768 z - z = _
    unfold cwrap
    rw [Int.emod_def]
    ring
  exact ⟨-((z + 32768) / (2 * 32768)), by omega⟩

theorem wrap16_add_left (z d : Int) : wrap16 ((wrap16 z).val + d) = wrap16 (z + d) := by
  apply wrap16_congr
  have := wrap16_val_sub_dvd z
  obtain ⟨k, hk⟩ := this
  exact ⟨k, by omega⟩

theorem wrap32_val (a : I32) : wrap32 a.val = a := by
  apply Subtype.ext
  exact cwrap_eq_self _ _ a.property.1 a.property.2

/-! ## C10: `resize` with an unchanged bucket count is a no-op -/

/-- C10: `HashTable::resize(hashSizeKB)` whose derived bucket count
`max(hashSizeKB * 1024 / sizeof(Bucket), 1)` equals the current
`numBuckets` performs no action at all: the whole state — bucket
contents and generation included — is left untouched (in particular the
table is not cleared and nothing is reallocated). -/
theorem resize_same_size_is_noop (s : HashTableState) (kb : Nat)
    (h : max (kb * 1024 / sizeofBucket) 1 = s.numBuckets) :
    hashTableResize s kb = s := by
  have h' : max (kb * (1024 / sizeofBucket)) 1 = s.numBuckets := by
    have : kb * (1024 / sizeofBucket) = kb * 1024 / sizeofBucket := by
      show kb * (1024 / 64) = kb * 1024 / 64
      omega
    rw [this, h]
  unfold hashTableResize
  simp [h']

/-- Witness for `resize_same_size_is_noop` at a concrete state. -/
theorem resize_same_size_is_noop_witness :
    hashTableResize { numBuckets := 16, generation := 3, table := fun _ => zeroBucket } 1 =
      { numBuckets := 16, generation := 3, table := fun _ => zeroBucket } :=
  resize_same_size_is_noop _ 1 (by decide)

/-! ## C6: the replacement-skip condition of `store` -/

/-- C6: `HashTable::store` leaves the selected replacement entry (indeed
the whole bucket) unchanged exactly when `bound ≠ EXACT`, the low 32
bits of the new hash equal the recomputed key of that entry, and
`depth + 2` is below the entry's stored depth decoded by adding
`DEPTH_LOWER_BOUND`; in every other case that entry is overwritten with
the new record and no other entry changes. -/
theorem store_skip_characterisation (generation : Nat) (b : TTBucket) (hashKey : Nat)
    (value eval : Int) (isPv : Bool) (bound move : Nat) (depth ply : Int) :
    (bound ≠ BOUND_EXACT ∧
       hashKey % 4294967296 = tteKey (b (findReplaceIdx generation (hashKey % 4294967296) b)) ∧
       depth + 2 <
         ((b (findReplaceIdx generation (hashKey % 4294967296) b)).depth8 : Int) +
           DEPTH_LOWER_BOUND →
     storeBucket generation b hashKey value eval isPv bound move depth ply = b) ∧
    (¬(bound ≠ BOUND_EXACT ∧
        hashKey % 4294967296 = tteKey (b (findReplaceIdx generation (hashKey % 4294967296) b)) ∧
        depth + 2 <
          ((b (findReplaceIdx generation (hashKey % 4294967296) b)).depth8 : Int) +
            DEPTH_LOWER_BOUND) →
     storeBucket generation b hashKey value eval isPv bound move depth ply =
       Function.update b (findReplaceIdx generation (hashKey % 4294967296) b)
         (ttNewEntry generation (hashKey % 4294967296) b value eval isPv bound move depth ply)) := by
  constructor
  · intro h
    simp only [storeBucket]
    split
    · rfl
    · rename_i hc
      exact absurd h hc
  · intro h
    simp only [storeBucket]
    split
    · rename_i hc
      exact absurd hc h
    · rfl

/-- Witness for `store_skip_characterisation`: on a concrete bucket
whose slot-0 entry has stored depth 10 and recomputed key 0, a
`bound = UPPER`, `depth = 3` store with hash 0 is skipped. -/
theorem store_skip_characterisation_witness :
    storeBucket 0 (fun _ => { key32 := 0, value16 := 0, eval16 := 0, pvBoundBest16 := 0,
                              depth8 := 10, generation8 := 0 }) 0 100 50 false 1 7 3 0 =
      (fun _ => { key32 := 0, value16 := 0, eval16 := 0, pvBoundBest16 := 0,
                  depth8 := 10, generation8 := 0 }) :=
  (store_skip_characterisation 0 _ 0 100 50 false 1 7 3 0).1 (by decide)

/-! ## C9: `hashUsage` precondition and characterisation -/

theorem foldl_add_nat {α : Type} (l : List α) (f : α → Nat) (init : Nat) :
    l.foldl (fun a x => a + f x) init = init + (l.map f).sum := by
  induction l generalizing init with
  | nil => simp
  | cons x xs ih => simp [ih, Nat.add_assoc]

theorem list_range_map_sum (n : Nat) (f : Nat → Nat) :
    ((List.range n).map f).sum = ∑ i ∈ Finset.range n, f i := by
  induction n with
  | zero => simp
  | succ n ih => rw [List.range_succ, Finset.sum_range_succ]; simp [ih]

/-- C9: `HashTable::hashUsage` divides by
`ENTRIES_PER_BUCKET * (numBuckets >> 10)`, whose value is zero for any
table below 1024 buckets (so the C++ division is well defined only under
`numBuckets ≥ 1024`); under that precondition it returns the permille,
over the first `numBuckets >> 10` buckets, of entries with nonzero
stored depth and current generation. -/
theorem hashUsage_precondition_and_spec (s : HashTableState) :
    (s.numBuckets < 1024 → ENTRIES_PER_BUCKET * (s.numBuckets >>> 10) = 0) ∧
    (1024 ≤ s.numBuckets →
      hashUsage s = hashUsageSpecCount s * 1000 / (ENTRIES_PER_BUCKET * (s.numBuckets >>> 10))) := by
  have hcnt : (List.range (s.numBuckets >>> 10)).foldl
      (fun acc i => (List.finRange ENTRIES_PER_BUCKET).foldl
        (fun acc2 j => acc2 + (if (s.table i j).depth8 ≠ 0 ∧
            (s.table i j).generation8 = s.generation % 256 then 1 else 0)) acc) 0
      = hashUsageSpecCount s := by
    simp only [foldl_add_nat]
    rw [Nat.zero_add, list_range_map_sum]
    unfold hashUsageSpecCount
    rw [Finset.card_filter, Finset.sum_product]
    exact Finset.sum_congr rfl (fun i _ => (Fin.sum_univ_def _).symm)
  constructor
  · intro h
    have h0 : s.numBuckets >>> 10 = 0 := by
      rw [Nat.shiftRight_eq_div_pow]
      omega
    simp [h0]
  · intro h
    simp only [hashUsage]
    rw [hcnt]

/-- Witness for `hashUsage_precondition_and_spec`: a 512-bucket table
has a zero divisor, a 2048-bucket table satisfies the permille
formula. -/
theorem hashUsage_precondition_and_spec_witness :
    ENTRIES_PER_BUCKET * (512 >>> 10) = 0 ∧
    hashUsage ⟨2048, 0, fun _ => zeroBucket⟩ =
      hashUsageSpecCount ⟨2048, 0, fun _ => zeroBucket⟩ * 1000 /
        (ENTRIES_PER_BUCKET * (2048 >>> 10)) :=
  ⟨(hashUsage_precondition_and_spec ⟨512, 0, fun _ => zeroBucket⟩).1 (by decide),
   (hashUsage_precondition_and_spec ⟨2048, 0, fun _ => zeroBucket⟩).2 (by decide)⟩

/-! ## C7: weight registry reuse and refcounting -/

theorem poolIncFirst_eq_none {W : Type} (l : List (RegistryEntry W)) (p : String)
    (h : ∀ e ∈ l, e.filepath ≠ p) : poolIncFirst l p = none := by
  induction l with
  | nil => rfl
  | cons e es ih =>
    unfold poolIncFirst
    rw [if_neg (h e (List.mem_cons_self e es)), ih (fun e' he' => h e' (List.mem_cons_of_mem e he'))]

theorem poolIncFirst_append {W : Type} (l1 l2 : List (RegistryEntry W)) (p : String)
    (h : ∀ e ∈ l1, e.filepath ≠ p) :
    poolIncFirst (l1 ++ l2) p = (poolIncFirst l2 p).map (fun x => (x.1, l1 ++ x.2)) := by
  induction l1 with
  | nil =>
    simp only [List.nil_append]
    cases hx : poolIncFirst l2 p with
    | none => simp
    | some x => simp
  | cons e es ih =>
    simp only [List.cons_append, poolIncFirst, List.append_eq]
    rw [if_neg (h e (List.mem_cons_self e es)), ih (fun e' he' => h e' (List.mem_cons_of_mem e he'))]
    cases hx : poolIncFirst l2 p with
    | none => simp
    | some x => simp

theorem poolUnload_append {W : Type} (l1 l2 : List (RegistryEntry W)) (q : Nat)
    (h : ∀ e ∈ l1, e.ptr ≠ q) :
    poolUnload (l1 ++ l2) q = l1 ++ poolUnload l2 q := by
  induction l1 with
  | nil => rfl
  | cons e es ih =>
    simp only [List.cons_append, poolUnload, List.append_eq]
    rw [if_neg (h e (List.mem_cons_self e es)), ih (fun e' he' => h e' (List.mem_cons_of_mem e he'))]

/-- C7: from a registry whose pool does not yet hold paths `p`, `q`
(`q ≠ p`, both loadable, all pool pointers below `nextPtr`): a second
`loadWeightFromFile(p)` returns the same pointer as the first without
invoking the loader, leaving exactly one pool entry for `p` with
refcount 2; after one `unloadWeight` of that pointer the entry is still
pooled (refcount 1, weight alive); after the second it is gone and the
pool is exactly the original one; loading the distinct path `q` yields a
distinct pool entry with a distinct pointer. -/
theorem registry_reuse_and_refcount {W : Type} (loaderLoad : String → Option W)
    (p q : String) (w0 w1 : W) (r : WeightRegistryState W)
    (hp : loaderLoad p = some w0)
    (hq : loaderLoad q = some w1)
    (hpq : q ≠ p)
    (hnotp : ∀ e ∈ r.pool, e.filepath ≠ p)
    (hnotq : ∀ e ∈ r.pool, e.filepath ≠ q)
    (hwf : ∀ e ∈ r.pool, e.ptr < r.nextPtr) :
    (loadWeightFromFile loaderLoad p r).1 = some r.nextPtr ∧
    (loadWeightFromFile loaderLoad p r).2.2 = true ∧
    (loadWeightFromFile loaderLoad p ((loadWeightFromFile loaderLoad p r).2.1)).1 =
      some r.nextPtr ∧
    (loadWeightFromFile loaderLoad p ((loadWeightFromFile loaderLoad p r).2.1)).2.2 = false ∧
    ((loadWeightFromFile loaderLoad p ((loadWeightFromFile loaderLoad p r).2.1)).2.1).pool.filter
        (fun e => e.filepath == p) =
      [{ filepath := p, weight := w0, ptr := r.nextPtr, refCount := 2 }] ∧
    (unloadWeight ((loadWeightFromFile loaderLoad p
          ((loadWeightFromFile loaderLoad p r).2.1)).2.1) r.nextPtr).pool.filter
        (fun e => e.filepath == p) =
      [{ filepath := p, weight := w0, ptr := r.nextPtr, refCount := 1 }] ∧
    (unloadWeight (unloadWeight ((loadWeightFromFile loaderLoad p
          ((loadWeightFromFile loaderLoad p r).2.1)).2.1) r.nextPtr) r.nextPtr).pool = r.pool ∧
    (loadWeightFromFile loaderLoad q ((loadWeightFromFile loaderLoad p
          ((loadWeightFromFile loaderLoad p r).2.1)).2.1)).1 = some (r.nextPtr + 1) ∧
    r.nextPtr + 1 ≠ r.nextPtr := by
  have hfiltp : r.pool.filter (fun e => e.filepath == p) = [] := by
    rw [List.filter_eq_nil_iff]
    intro e he
    simpa using hnotp e he
  have h1 : loadWeightFromFile loaderLoad p r =
      (some r.nextPtr,
       { pool := r.pool ++ [{ filepath := p, weight := w0, ptr := r.nextPtr, refCount := 1 }],
         nextPtr := r.nextPtr + 1 }, true) := by
    unfold loadWeightFromFile
    rw [poolIncFirst_eq_none r.pool p hnotp, hp]
  have h2 : loadWeightFromFile loaderLoad p ((loadWeightFromFile loaderLoad p r).2.1) =
      (some r.nextPtr,
       { pool := r.pool ++ [{ filepath := p, weight := w0, ptr := r.nextPtr, refCount := 2 }],
         nextPtr := r.nextPtr + 1 }, false) := by
    rw [h1]
    unfold loadWeightFromFile
    rw [poolIncFirst_append r.pool _ p hnotp]
    unfold poolIncFirst
    rw [if_pos rfl]
    rfl
  have hptr : ∀ e ∈ r.pool, e.ptr ≠ r.nextPtr := fun e he => by have := hwf e he; omega
  have h3 : unloadWeight ((loadWeightFromFile loaderLoad p
        ((loadWeightFromFile loaderLoad p r).2.1)).2.1) r.nextPtr =
      { pool := r.pool ++ [{ filepath := p, weight := w0, ptr := r.nextPtr, refCount := 1 }],
        nextPtr := r.nextPtr + 1 } := by
    rw [h2]
    unfold unloadWeight
    rw [poolUnload_append r.pool _ r.nextPtr hptr]
    simp [poolUnload]
  have h4 : unloadWeight (unloadWeight ((loadWeightFromFile loaderLoad p
        ((loadWeightFromFile loaderLoad p r).2.1)).2.1) r.nextPtr) r.nextPtr =
      { pool := r.pool ++ [], nextPtr := r.nextPtr + 1 } := by
    rw [h3]
    unfold unloadWeight
    rw [poolUnload_append r.pool _ r.nextPtr hptr]
    simp [poolUnload]
  refine ⟨by rw [h1], by rw [h1], by rw [h2], by rw [h2], ?_, ?_, ?_, ?_, by omega⟩
  · rw [h2]
    simp [List.filter_append, hfiltp]
  · rw [h3]
    simp [List.filter_append, hfiltp]
  · rw [h4]
    simp
  · rw [h2]
    unfold loadWeightFromFile
    rw [poolIncFirst_append r.pool _ q hnotq]
    simp [poolIncFirst, Ne.symm hpq, hq]

/-- Witness for `registry_reuse_and_refcount`: concrete two-path loader
over an empty registry; the second load of `"a"` returns the pointer of
the first. -/
theorem registry_reuse_and_refcount_witness :
    (loadWeightFromFile (fun s => if s = "a" then some 0 else if s = "b" then some 1 else none)
      "a" ((loadWeightFromFile
            (fun s => if s = "a" then some 0 else if s = "b" then some 1 else none)
            "a" (emptyRegistry Nat)).2.1)).1 = some (emptyRegistry Nat).nextPtr :=
  (registry_reuse_and_refcount
    (fun s => if s = "a" then some 0 else if s = "b" then some 1 else none)
    "a" "b" 0 1 (emptyRegistry Nat) (by simp) (by simp) (by simp)
    (by intro e he; simp [emptyRegistry] at he) (by intro e he; simp [emptyRegistry] at he)
    (by intro e he; simp [emptyRegistry] at he)).2.2.1

/-! ## C8: loader failure paths -/

/-- C8: every failing loader stage yields "not loaded": a header magic
other than `0xacd8cc6a` makes the header wrapper return `none`; a
rejecting validator makes it return `none` for *any* inner loader (the
inner loader is never invoked); a successful Mix8 body load forces
`num_head_buckets ∈ [1, MaxNumBuckets]` and the stream to be good and
exactly at EOF after the body (so out-of-range bucket counts and
trailing bytes yield `none`); and a failed load leaves the registry
pool untouched while `loadWeightFromFile` returns `nullptr`. -/
theorem loader_failure_paths (W : Type) :
    (∀ (validator : Option (StandardHeader → Bool)) (baseLoad : IStream → Option W)
       (s : IStream), (readN 5 s).1.getD 0 0 ≠ STANDARD_HEADER_MAGIC →
       standardHeaderLoad validator baseLoad s = none) ∧
    (∀ (v : StandardHeader → Bool) (baseLoad : IStream → Option W) (s : IStream),
       v (parsedStandardHeader s) = false →
       standardHeaderLoad (some v) baseLoad s = none) ∧
    (∀ (sz : Mix8Sizes) (maxNumBuckets : Nat) (s : IStream) (w : Mix8RawWeight),
       mix8BinaryLoad sz maxNumBuckets s = some w →
       1 ≤ mix8NumHeadBuckets sz s ∧ mix8NumHeadBuckets sz s ≤ (maxNumBuckets : Int) ∧
         atEofOk (mix8BodyEndStream sz maxNumBuckets s) = true) ∧
    (∀ (loaderLoad : String → Option W) (p : String) (r : WeightRegistryState W),
       loaderLoad p = none → (∀ e ∈ r.pool, e.filepath ≠ p) →
       loadWeightFromFile loaderLoad p r = (none, r, true)) := by
  refine ⟨?_, ?_, ?_, ?_⟩
  · intro validator baseLoad s h
    unfold standardHeaderLoad
    rw [if_pos h]
  · intro v baseLoad s h
    unfold standardHeaderLoad
    split
    · rfl
    · simp [h]
  · intro sz maxNumBuckets s w h
    simp only [mix8BinaryLoad] at h
    split at h
    · exact absurd h (by simp)
    · rename_i hrange
      push_neg at hrange
      split at h
      · rename_i heof
        unfold mix8BodyEndStream mix8NumHeadBuckets mix8StreamAfterFixed ignoreN
        exact ⟨hrange.1, hrange.2, heof⟩
      · exact absurd h (by simp)
  · intro loaderLoad p r hload hnot
    unfold loadWeightFromFile
    rw [poolIncFirst_eq_none r.pool p hnot, hload]

/-- Witness for `loader_failure_paths`: a zero-magic header is rejected;
a `fun _ => false` validator rejects a good-magic header; a concrete
1-element-per-field Mix8 stream that does load has an in-range bucket
count and ends exactly at EOF; a failing loader leaves an empty registry
empty. -/
theorem loader_failure_paths_witness :
    standardHeaderLoad (none : Option (StandardHeader → Bool)) (fun _ => (none : Option Nat))
      ⟨[0, 0, 0, 0, 0], false⟩ = none ∧
    standardHeaderLoad (some (fun _ => false)) (fun _ => (some 7 : Option Nat))
      ⟨[0xacd8cc6a, 0, 0, 0, 0], false⟩ = none ∧
    (1 ≤ mix8NumHeadBuckets ⟨1, 1, 1, 1, 1, 1⟩ ⟨[0, 0, 0, 0, 0, 0, 1, 0, 0], false⟩ ∧
      mix8NumHeadBuckets ⟨1, 1, 1, 1, 1, 1⟩ ⟨[0, 0, 0, 0, 0, 0, 1, 0, 0], false⟩ ≤ (1 : Int) ∧
      atEofOk (mix8BodyEndStream ⟨1, 1, 1, 1, 1, 1⟩ 1 ⟨[0, 0, 0, 0, 0, 0, 1, 0, 0], false⟩) =
        true) ∧
    loadWeightFromFile (fun _ => (none : Option Nat)) "x" (emptyRegistry Nat) =
      (none, emptyRegistry Nat, true) :=
  ⟨(loader_failure_paths Nat).1 none _ _ (by decide),
   (loader_failure_paths Nat).2.1 _ _ _ rfl,
   (loader_failure_paths Nat).2.2.1 ⟨1, 1, 1, 1, 1, 1⟩ 1 ⟨[0, 0, 0, 0, 0, 0, 1, 0, 0], false⟩
     { mappingT := [0], preluT := [0], dwWeightT := [0], dwBiasT := [0],
       scaleAfterConv := 0, scaleDirect := 0, numHeadBuckets := 1, bucketsT := [[0]] }
     (by decide),
   (loader_failure_paths Nat).2.2.2 _ "x" (emptyRegistry Nat) rfl
     (by intro e he; simp [emptyRegistry] at he)⟩

/-! ## C5: TT store / probe round trip -/

theorem nat_xor_mod_two32 (a b : Nat) :
    (a ^^^ b) % 4294967296 = a % 4294967296 ^^^ b % 4294967296 := by
  have h : (4294967296 : Nat) = 2 ^ 32 := by norm_num
  rw [h, ← Nat.and_pow_two_sub_one_eq_mod, ← Nat.and_pow_two_sub_one_eq_mod,
    ← Nat.and_pow_two_sub_one_eq_mod, Nat.and_xor_distrib_right]

theorem xor_cancel_pair (a b c : Nat) : a ^^^ b ^^^ c ^^^ b ^^^ c = a := by
  apply Nat.eq_of_testBit_eq
  intro i
  simp only [Nat.testBit_xor]
  cases a.testBit i <;> cases b.testBit i <;> cases c.testBit i <;> rfl

theorem tteKey_of_store (k d0 d1 : Nat) (hk : k < 4294967296) :
    ((k ^^^ d0 ^^^ d1) % 4294967296 ^^^ d0 ^^^ d1) % 4294967296 = k := by
  rw [nat_xor_mod_two32, nat_xor_mod_two32, Nat.mod_mod_of_dvd _ (dvd_refl 4294967296),
    nat_xor_mod_two32, nat_xor_mod_two32, Nat.mod_eq_of_lt hk]
  exact xor_cancel_pair k (d0 % 4294967296) (d1 % 4294967296)

theorem probeFind_eq (k : Nat) (b : TTBucket) :
    probeFind k b =
      if tteKey (b 0) = k then some 0
      else if tteKey (b 1) = k then some 1
      else if tteKey (b 2) = k then some 2
      else if tteKey (b 3) = k then some 3
      else none := by
  have h4 : List.finRange ENTRIES_PER_BUCKET = [0, 1, 2, 3] := by decide
  unfold probeFind
  rw [h4]
  simp only [List.find?]
  by_cases h0 : tteKey (b 0) = k <;> by_cases h1 : tteKey (b 1) = k <;>
    by_cases h2 : tteKey (b 2) = k <;> by_cases h3 : tteKey (b 3) = k <;>
    simp [h0, h1, h2, h3]

theorem probeFind_first (k : Nat) (b : TTBucket) (i : Fin ENTRIES_PER_BUCKET)
    (h : probeFind k b = some i) :
    ∀ j : Fin ENTRIES_PER_BUCKET, j < i → tteKey (b j) ≠ k := by
  rw [probeFind_eq] at h
  intro j hj
  split_ifs at h with h0 h1 h2 h3
  · obtain rfl : (0 : Fin ENTRIES_PER_BUCKET) = i := Option.some.inj h
    exact absurd hj (by simp [Fin.lt_def])
  · obtain rfl : (1 : Fin ENTRIES_PER_BUCKET) = i := Option.some.inj h
    fin_cases j
    · exact h0
    · exact absurd hj (by decide)
    · exact absurd hj (by decide)
    · exact absurd hj (by decide)
  · obtain rfl : (2 : Fin ENTRIES_PER_BUCKET) = i := Option.some.inj h
    fin_cases j
    · exact h0
    · exact h1
    · exact absurd hj (by decide)
    · exact absurd hj (by decide)
  · obtain rfl : (3 : Fin ENTRIES_PER_BUCKET) = i := Option.some.inj h
    fin_cases j
    · exact h0
    · exact h1
    · exact h2
    · exact absurd hj (by decide)

theorem findReplaceIdx_prefix (generation k : Nat) (b : TTBucket) :
    ∀ j : Fin ENTRIES_PER_BUCKET, j < findReplaceIdx generation k b → tteKey (b j) ≠ k := by
  intro j hj
  unfold findReplaceIdx at hj
  cases hp : probeFind k b with
  | none =>
    intro hk
    have hmem : j ∈ List.finRange ENTRIES_PER_BUCKET := List.mem_finRange j
    have hnone := List.find?_eq_none.mp (show List.find? _ _ = none from hp) j hmem
    simp only [decide_eq_true_eq] at hnone
    exact hnone hk
  | some i =>
    simp only [hp] at hj
    exact probeFind_first k b i hp j hj

theorem probeFind_update (b : TTBucket) (k : Nat) (r : Fin ENTRIES_PER_BUCKET) (e : TTEntry)
    (hpre : ∀ j : Fin ENTRIES_PER_BUCKET, j < r → tteKey (b j) ≠ k)
    (he : tteKey e = k) :
    probeFind k (Function.update b r e) = some r := by
  rw [probeFind_eq]
  fin_cases r
  · simp [Function.update_apply, Fin.ext_iff, he]
  · have h0 := hpre 0 (by decide)
    simp [Function.update_apply, Fin.ext_iff, he, h0]
  · have h0 := hpre 0 (by decide)
    have h1 := hpre 1 (by decide)
    simp [Function.update_apply, Fin.ext_iff, he, h0, h1]
  · have h0 := hpre 0 (by decide)
    have h1 := hpre 1 (by decide)
    have h2 := hpre 2 (by decide)
    simp [Function.update_apply, Fin.ext_iff, he, h0, h1, h2]
    refine ⟨?_, rfl⟩
    split
    · exact he
    · rename_i hq
      exact absurd rfl hq

theorem wrap16_fix (z : Int) (h1 : -32768 ≤ z) (h2 : z < 32768) : (wrap16 z).val = z :=
  cwrap_eq_self 32768 z h1 h2

theorem stored_value_roundtrip (value ply : Int)
    (hv1 : VALUE_NONE ≤ value) (hv2 : value ≤ VALUE_INFINITE)
    (hp1 : 0 ≤ ply) (hp2 : ply ≤ 2000) :
    storedValueToSearchValue ((wrap16 (searchValueToStoredValue value ply)).val) ply = value := by
  have hv1' : (-30002 : Int) ≤ value := hv1
  have hv2' : value ≤ (30001 : Int) := hv2
  unfold searchValueToStoredValue VALUE_MATE_IN_MAX_PLY
  split_ifs with h1 h2
  · rw [wrap16_fix _ (by omega) (by omega)]
    unfold storedValueToSearchValue VALUE_MATE_IN_MAX_PLY
    rw [if_pos (by omega)]
    omega
  · rw [wrap16_fix _ (by omega) (by omega)]
    unfold storedValueToSearchValue VALUE_MATE_IN_MAX_PLY
    rw [if_neg (by omega), if_pos (by omega)]
    omega
  · rw [wrap16_fix _ (by omega) (by omega)]
    unfold storedValueToSearchValue VALUE_MATE_IN_MAX_PLY
    rw [if_neg (by omega), if_neg (by omega)]

set_option maxRecDepth 100000 in
theorem pvBound_decode : ∀ pvn : Nat, pvn < 2 → ∀ bound : Nat, bound < 4 →
    ∀ move : Nat, move < 1024 →
    (((pvn <<< 15) ||| ((bound % 65536) <<< 13) ||| (move % 65536)) % 65536) >>> 15 = pvn ∧
    ((((pvn <<< 15) ||| ((bound % 65536) <<< 13) ||| (move % 65536)) % 65536) >>> 13) &&& 3 =
      bound ∧
    (((pvn <<< 15) ||| ((bound % 65536) <<< 13) ||| (move % 65536)) % 65536) &&& 1023 = move := by
  decide

set_option maxHeartbeats 1000000 in
/-- C5: after `HashTable::store` with in-range arguments (and the write
actually performed: the depth-preservation skip of C6 does not fire and
the move is not `Pos::NONE`), the written entry satisfies
`stored_key32 ^ data[0] ^ data[1] = uint32(hashKey)`, and a probe with
the same hash at the same ply hits and reports exactly the stored
value, eval, pv flag, bound, move and depth. -/
theorem tt_store_then_probe_roundtrip
    (generation : Nat) (b : TTBucket) (hashKey : Nat) (value eval : Int) (isPv : Bool)
    (bound move : Nat) (depth ply : Int)
    (hv1 : VALUE_NONE ≤ value) (hv2 : value ≤ VALUE_INFINITE)
    (hd1 : DEPTH_LOWER_BOUND < depth) (hd2 : depth < DEPTH_LOWER_BOUND + 256)
    (he1 : -32768 ≤ eval) (he2 : eval < 32768)
    (hb : bound < 4) (hm : move < 1024)
    (hp1 : 0 ≤ ply) (hp2 : ply ≤ 2000)
    (hmove : move ≠ POS_NONE)
    (hnoskip : ¬(bound ≠ BOUND_EXACT ∧
        hashKey % 4294967296 =
          tteKey (b (findReplaceIdx generation (hashKey % 4294967296) b)) ∧
        depth + 2 <
          ((b (findReplaceIdx generation (hashKey % 4294967296) b)).depth8 : Int) +
            DEPTH_LOWER_BOUND)) :
    tteKey (storeBucket generation b hashKey value eval isPv bound move depth ply
        (findReplaceIdx generation (hashKey % 4294967296) b)) = hashKey % 4294967296 ∧
    (probeBucket generation hashKey ply
        (storeBucket generation b hashKey value eval isPv bound move depth ply)).1 =
      some { ttValue := value, ttEval := eval, ttIsPv := isPv, ttBound := bound,
             ttMove := move, ttDepth := depth } := by
  have hklt : hashKey % 4294967296 < 4294967296 := Nat.mod_lt _ (by norm_num)
  have hstore : storeBucket generation b hashKey value eval isPv bound move depth ply =
      Function.update b (findReplaceIdx generation (hashKey % 4294967296) b)
        (ttNewEntry generation (hashKey % 4294967296) b value eval isPv bound move depth ply) := by
    simp only [storeBucket]
    split
    · rename_i hc
      exact absurd hc hnoskip
    · rfl
  have hne : ttNewEntry generation (hashKey % 4294967296) b value eval isPv bound move depth ply =
      { packEntryFields generation value eval isPv bound move depth ply with
        key32 := ((hashKey % 4294967296) ^^^
          (packEntryFields generation value eval isPv bound move depth ply).data0 ^^^
          (packEntryFields generation value eval isPv bound move depth ply).data1) %
            4294967296 } := by
    simp only [ttNewEntry]
    rw [if_neg (fun hcon => hmove hcon.1)]
  have hkey : tteKey (ttNewEntry generation (hashKey % 4294967296) b value eval isPv bound move
      depth ply) = hashKey % 4294967296 := by
    rw [hne]
    exact tteKey_of_store _ _ _ hklt
  have hD : DEPTH_LOWER_BOUND = (-2 : Int) := rfl
  have hdec := pvBound_decode (if isPv then 1 else 0) (by cases isPv <;> decide) bound hb move hm
  constructor
  · rw [hstore, Function.update_same]
    exact hkey
  · rw [hstore]
    have hpre := findReplaceIdx_prefix generation (hashKey % 4294967296) b
    have hfind := probeFind_update b (hashKey % 4294967296) _ _ hpre hkey
    simp only [probeBucket]
    rw [hfind]
    simp only [Function.update_same]
    rw [hne]
    simp only [packEntryFields, Option.some.injEq, TTProbeRes.mk.injEq]
    refine ⟨?_, ?_, ?_, ?_, ?_, ?_⟩
    · exact stored_value_roundtrip value ply hv1 hv2 hp1 hp2
    · exact wrap16_fix eval he1 he2
    · simp only [hdec.1]
      cases isPv <;> rfl
    · simp only [hdec.2.1]
    · simp only [hdec.2.2]
    · rw [hD] at hd1 hd2 ⊢
      omega

/-- Witness for `tt_store_then_probe_roundtrip`: scenario S1's store into
a zeroed bucket, probed back at ply 0. -/
theorem tt_store_then_probe_roundtrip_witness :
    tteKey (storeBucket 0 zeroBucket 0xDEADBEEFCAFEBABE 100 50 true 3 291 3 0
        (findReplaceIdx 0 (0xDEADBEEFCAFEBABE % 4294967296) zeroBucket)) =
      0xDEADBEEFCAFEBABE % 4294967296 ∧
    (probeBucket 0 0xDEADBEEFCAFEBABE 0
        (storeBucket 0 zeroBucket 0xDEADBEEFCAFEBABE 100 50 true 3 291 3 0)).1 =
      some { ttValue := 100, ttEval := 50, ttIsPv := true, ttBound := 3,
             ttMove := 291, ttDepth := 3 } :=
  tt_store_then_probe_roundtrip 0 zeroBucket 0xDEADBEEFCAFEBABE 100 50 true 3 291 3 0
    (by decide) (by decide) (by decide) (by decide) (by decide) (by decide)
    (by decide) (by decide) (by decide) (by decide) (by decide) (by decide)

/-! ## Accumulator helper lemmas -/

theorem intLor_neg_iff (a b : Int) : Int.lor a b < 0 ↔ a < 0 ∨ b < 0 := by
  cases a <;> cases b <;>
    simp only [Int.lor, Int.negSucc_eq, Int.ofNat_eq_natCast] <;> omega

theorem offBoardTest_iff (bsSub1 xi yi : Int) :
    offBoardTest bsSub1 xi yi = true ↔
      ¬(0 ≤ xi ∧ xi ≤ bsSub1 ∧ 0 ≤ yi ∧ yi ≤ bsSub1) := by
  unfold offBoardTest
  rw [decide_eq_true_eq, intLor_neg_iff, intLor_neg_iff, intLor_neg_iff]
  omega

theorem updShape_apply_self (t : ShapeTable) (X Y : Int) (d : Fin 4) (v : ZMod (2 ^ 32)) :
    updShape t X Y d v X Y d = v := by
  unfold updShape
  rw [if_pos ⟨rfl, rfl, rfl⟩]

theorem updShape_apply_other (t : ShapeTable) (X Y : Int) (d : Fin 4) (v : ZMod (2 ^ 32))
    (X' Y' : Int) (d' : Fin 4) (h : ¬(X' = X ∧ Y' = Y ∧ d' = d)) :
    updShape t X Y d v X' Y' d' = t X' Y' d' := by
  unfold updShape
  rw [if_neg h]

theorem updShape_self (t : ShapeTable) (X Y : Int) (d : Fin 4) :
    updShape t X Y d (t X Y d) = t := by
  funext X' Y' d'
  unfold updShape
  split
  · rename_i h
    rw [h.1, h.2.1, h.2.2]
  · rfl

theorem updShape_override (t : ShapeTable) (X Y : Int) (d : Fin 4) (v1 v2 : ZMod (2 ^ 32)) :
    updShape (updShape t X Y d v1) X Y d v2 = updShape t X Y d v2 := by
  funext X' Y' d'
  unfold updShape
  split
  · rfl
  · rfl

theorem updShape_comm (t : ShapeTable) (X1 Y1 : Int) (d1 : Fin 4) (v1 : ZMod (2 ^ 32))
    (X2 Y2 : Int) (d2 : Fin 4) (v2 : ZMod (2 ^ 32))
    (h : ¬(X1 = X2 ∧ Y1 = Y2 ∧ d1 = d2)) :
    updShape (updShape t X1 Y1 d1 v1) X2 Y2 d2 v2 =
      updShape (updShape t X2 Y2 d2 v2) X1 Y1 d1 v1 := by
  funext X' Y' d'
  unfold updShape
  by_cases h2 : X' = X2 ∧ Y' = Y2 ∧ d' = d2 <;> by_cases h1 : X' = X1 ∧ Y' = Y1 ∧ d' = d1
  · exact absurd ⟨h1.1.symm.trans h2.1, h1.2.1.symm.trans h2.2.1, h1.2.2.symm.trans h2.2.2⟩ h
  · rw [if_pos h2, if_neg h1, if_pos h2]
  · rw [if_neg h2, if_pos h1, if_pos h1]
  · rw [if_neg h2, if_neg h1, if_neg h1, if_neg h2]

theorem DX_DY_one (d : Fin 4) : DX d = 1 ∨ DY d = 1 := by revert d; decide

theorem DX_range (d : Fin 4) : DX d = 0 ∨ DX d = 1 := by revert d; decide

theorem DY_range (d : Fin 4) : DY d = -1 ∨ DY d = 0 ∨ DY d = 1 := by revert d; decide

theorem changeKey_inj (x y : Int) (p q : Fin 4 × Int)
    (h : changeKey x y p = changeKey x y q) : p = q := by
  obtain ⟨pd, pdist⟩ := p
  obtain ⟨qd, qdist⟩ := q
  simp only [changeKey, Prod.mk.injEq] at h
  obtain ⟨h1, h2, h3⟩ := h
  subst h3
  have hd : pdist = qdist := by
    rcases DX_DY_one pd with hx | hy
    · rw [hx] at h1; omega
    · rw [hy] at h2; omega
  rw [hd]

theorem changePoints_nodup : changePoints.Nodup := by decide

theorem changePoints_pairwise (x y : Int) :
    List.Pairwise (fun a b => changeKey x y a ≠ changeKey x y b) changePoints :=
  List.Pairwise.imp (fun hab hk => hab (changeKey_inj x y _ _ hk)) changePoints_nodup

theorem mem_changePoints (d : Fin 4) (dist : Int) (h1 : -5 ≤ dist) (h2 : dist ≤ 5) :
    (d, dist) ∈ changePoints := by
  unfold changePoints
  rw [List.pair_mem_product]
  refine ⟨List.mem_finRange d, ?_⟩
  unfold distList
  simp only [List.mem_cons, List.not_mem_nil, or_false]
  omega

theorem mem_changePoints_bounds (p : Fin 4 × Int) (h : p ∈ changePoints) :
    -5 ≤ p.2 ∧ p.2 ≤ 5 := by
  obtain ⟨d, dist⟩ := p
  unfold changePoints at h
  rw [List.pair_mem_product] at h
  have hb := h.2
  unfold distList at hb
  simp only [List.mem_cons, List.not_mem_nil, or_false] at hb
  constructor <;> omega

theorem shape_foldl_frame (bs : Nat) (dP x y : Int) (ps : List (Fin 4 × Int))
    (t : ShapeTable) (acc : List OnePointChange) (X Y : Int) (d : Fin 4)
    (h : ∀ p ∈ ps, ¬(X = x - p.2 * DX p.1 ∧ Y = y - p.2 * DY p.1 ∧ d = p.1)) :
    (ps.foldl (shapeStep bs dP x y) (t, acc)).1 X Y d = t X Y d := by
  induction ps generalizing t acc with
  | nil => rfl
  | cons q rest ih =>
    rw [List.foldl_cons]
    have hq := h q (List.mem_cons_self q rest)
    have hrest : ∀ p ∈ rest, ¬(X = x - p.2 * DX p.1 ∧ Y = y - p.2 * DY p.1 ∧ d = p.1) :=
      fun p hp => h p (List.mem_cons_of_mem q hp)
    simp only [shapeStep]
    split
    · exact ih t acc hrest
    · rw [ih _ _ hrest]
      exact updShape_apply_other t _ _ q.1 _ X Y d hq

theorem shape_foldl_apply (bs : Nat) (dP x y : Int) (ps : List (Fin 4 × Int))
    (p : Fin 4 × Int) (hmem : p ∈ ps)
    (hnd : List.Pairwise (fun a b => changeKey x y a ≠ changeKey x y b) ps)
    (hon : offBoardTest ((bs : Int) - 1) (x - p.2 * DX p.1) (y - p.2 * DY p.1) = false)
    (t : ShapeTable) (acc : List OnePointChange) :
    (ps.foldl (shapeStep bs dP x y) (t, acc)).1 (x - p.2 * DX p.1) (y - p.2 * DY p.1) p.1 =
      t (x - p.2 * DX p.1) (y - p.2 * DY p.1) p.1 +
        ((dP * Power3 (p.2 + 5).toNat : Int) : ZMod (2 ^ 32)) := by
  induction ps generalizing t acc with
  | nil => cases hmem
  | cons q rest ih =>
    rw [List.foldl_cons]
    rcases List.mem_cons.mp hmem with heq | hmem'
    · subst heq
      have hfr : ∀ r ∈ rest,
          ¬(x - p.2 * DX p.1 = x - r.2 * DX r.1 ∧
            y - p.2 * DY p.1 = y - r.2 * DY r.1 ∧ p.1 = r.1) := by
        intro r hr hc
        obtain ⟨h1, h2, h3⟩ := hc
        exact (List.rel_of_pairwise_cons hnd hr)
          (by unfold changeKey; rw [← h1, ← h2, ← h3])
      simp only [shapeStep]
      rw [if_neg (by rw [hon]; exact Bool.false_ne_true)]
      rw [shape_foldl_frame bs dP x y rest _ _ _ _ _ hfr]
      exact updShape_apply_self t _ _ p.1 _
    · have hne := List.rel_of_pairwise_cons hnd hmem'
      have hother : ¬(x - p.2 * DX p.1 = x - q.2 * DX q.1 ∧
          y - p.2 * DY p.1 = y - q.2 * DY q.1 ∧ p.1 = q.1) := by
        intro hc
        obtain ⟨h1, h2, h3⟩ := hc
        exact hne (by unfold changeKey; rw [← h1, ← h2, ← h3])
      simp only [shapeStep]
      split
      · exact ih hmem' (List.Pairwise.of_cons hnd) t acc
      · rw [ih hmem' (List.Pairwise.of_cons hnd) _ _]
        rw [updShape_apply_other t _ _ q.1 _ _ _ p.1 hother]

/-! ## C2: shape-table update characterisation -/

/-- C2: in `Mix8Accumulator::update` with piece colour `c` at `(x, y)`,
for each of the 4 directions and each offset `dist ∈ [-5, 5]` whose cell
`(xi, yi) = (x - dist*DX[dir], y - dist*DY[dir])` lies on the board —
off-board cells being skipped exactly by the branch-free test
`(xi | (bs-1-xi) | yi | (bs-1-yi)) < 0` — the shape entry at
`(xi, yi, dir)` is replaced by `oldShape + Δ*Power3[dist+5]` (in
`uint32` arithmetic), with `Δ = c+1` on the MOVE path and `Δ = -1-c` on
the UNDO path, and no other `indexTable` entry changes. -/
theorem update_shape_table_characterisation (w : Mix8WeightModel)
    (convDim featDim boardSize : Nat) (c x y : Int) (a : Mix8AccState)
    (backup : ValueSumType) :
    (∀ xi yi : Int,
        offBoardTest ((boardSize : Int) - 1) xi yi = true ↔
          ¬(0 ≤ xi ∧ xi < (boardSize : Int) ∧ 0 ≤ yi ∧ yi < (boardSize : Int))) ∧
    (∀ (d : Fin 4) (dist : Int), -5 ≤ dist → dist ≤ 5 →
        0 ≤ x - dist * DX d → x - dist * DX d < (boardSize : Int) →
        0 ≤ y - dist * DY d → y - dist * DY d < (boardSize : Int) →
        (a.updateMove w convDim featDim boardSize c x y).indexTable
            (x - dist * DX d) (y - dist * DY d) d =
          a.indexTable (x - dist * DX d) (y - dist * DY d) d +
            (((c + 1) * Power3 (dist + 5).toNat : Int) : ZMod (2 ^ 32)) ∧
        (a.updateUndo w convDim featDim boardSize c x y backup).indexTable
            (x - dist * DX d) (y - dist * DY d) d =
          a.indexTable (x - dist * DX d) (y - dist * DY d) d +
            (((-1 - c) * Power3 (dist + 5).toNat : Int) : ZMod (2 ^ 32))) ∧
    (∀ (X Y : Int) (d : Fin 4),
        (∀ dist : Int, -5 ≤ dist → dist ≤ 5 →
            ¬(X = x - dist * DX d ∧ Y = y - dist * DY d)) →
        (a.updateMove w convDim featDim boardSize c x y).indexTable X Y d =
            a.indexTable X Y d ∧
        (a.updateUndo w convDim featDim boardSize c x y backup).indexTable X Y d =
            a.indexTable X Y d) := by
  have hM : (a.updateMove w convDim featDim boardSize c x y).indexTable =
      (recordChanges boardSize (c + 1) x y a.indexTable).1 := rfl
  have hU : (a.updateUndo w convDim featDim boardSize c x y backup).indexTable =
      (recordChanges boardSize (-1 - c) x y a.indexTable).1 := rfl
  refine ⟨?_, ?_, ?_⟩
  · intro xi yi
    rw [offBoardTest_iff]
    omega
  · intro d dist hd1 hd2 hx1 hx2 hy1 hy2
    have hmem := mem_changePoints d dist hd1 hd2
    have hon : offBoardTest ((boardSize : Int) - 1)
        (x - dist * DX d) (y - dist * DY d) = false := by
      rw [Bool.eq_false_iff, ne_eq, offBoardTest_iff]
      omega
    constructor
    · rw [hM]
      exact shape_foldl_apply boardSize (c + 1) x y changePoints (d, dist) hmem
        (changePoints_pairwise x y) hon a.indexTable []
    · rw [hU]
      exact shape_foldl_apply boardSize (-1 - c) x y changePoints (d, dist) hmem
        (changePoints_pairwise x y) hon a.indexTable []
  · intro X Y d hfar
    have hfr : ∀ p ∈ changePoints,
        ¬(X = x - p.2 * DX p.1 ∧ Y = y - p.2 * DY p.1 ∧ d = p.1) := by
      intro p hp hc
      obtain ⟨h1, h2, h3⟩ := hc
      have hb := mem_changePoints_bounds p hp
      subst h3
      exact hfar p.2 hb.1 hb.2 ⟨h1, h2⟩
    constructor
    · rw [hM]
      exact shape_foldl_frame boardSize (c + 1) x y changePoints a.indexTable [] X Y d hfr
    · rw [hU]
      exact shape_foldl_frame boardSize (-1 - c) x y changePoints a.indexTable [] X Y d hfr

/-! ## C3: the conv-dirty rectangle of the MOVE path -/

theorem mem_intRange (lo hi X : Int) : X ∈ intRange lo hi ↔ lo ≤ X ∧ X ≤ hi := by
  unfold intRange
  constructor
  · intro h
    obtain ⟨k, hk, hEq⟩ := List.mem_map.mp h
    rw [List.mem_range] at hk
    omega
  · intro h
    exact List.mem_map.mpr ⟨(X - lo).toNat, List.mem_range.mpr (by omega), by omega⟩

theorem mem_rectCells (bs : Nat) (x y X Y : Int) :
    (X, Y) ∈ rectCells bs x y ↔
      rectLo x ≤ X ∧ X ≤ rectHi bs x ∧ rectLo y ≤ Y ∧ Y ≤ rectHi bs y := by
  unfold rectCells
  simp only [List.mem_flatMap, List.mem_map]
  constructor
  · rintro ⟨yi, hyi, xi, hxi, heq⟩
    simp only [Prod.mk.injEq] at heq
    obtain ⟨rfl, rfl⟩ := heq
    rw [mem_intRange] at hyi hxi
    exact ⟨hxi.1, hxi.2, hyi.1, hyi.2⟩
  · rintro ⟨h1, h2, h3, h4⟩
    exact ⟨Y, (mem_intRange _ _ _).mpr ⟨h3, h4⟩, X, (mem_intRange _ _ _).mpr ⟨h1, h2⟩, rfl⟩

theorem shape_foldl_changes_mem (bs : Nat) (dP x y : Int) (ps : List (Fin 4 × Int))
    (hps : ∀ p ∈ ps, -5 ≤ p.2 ∧ p.2 ≤ 5)
    (t : ShapeTable) (acc : List OnePointChange) (c : OnePointChange)
    (hc : c ∈ (ps.foldl (shapeStep bs dP x y) (t, acc)).2) :
    c ∈ acc ∨ (x - 5 ≤ c.x ∧ c.x ≤ x + 5 ∧ y - 5 ≤ c.y ∧ c.y ≤ y + 5 ∧
               0 ≤ c.x ∧ c.x < (bs : Int) ∧ 0 ≤ c.y ∧ c.y < (bs : Int)) := by
  induction ps generalizing t acc with
  | nil => exact Or.inl hc
  | cons q rest ih =>
    have hq := hps q (List.mem_cons_self q rest)
    have hrest : ∀ p ∈ rest, -5 ≤ p.2 ∧ p.2 ≤ 5 :=
      fun p hp => hps p (List.mem_cons_of_mem q hp)
    rw [List.foldl_cons] at hc
    simp only [shapeStep] at hc
    by_cases hob : offBoardTest ((bs : Int) - 1) (x - q.2 * DX q.1) (y - q.2 * DY q.1) = true
    · rw [if_pos hob] at hc
      exact ih hrest t acc hc
    · rw [if_neg hob] at hc
      rcases ih hrest _ _ hc with hacc | hb
      · rcases List.mem_append.mp hacc with h1 | h2
        · exact Or.inl h1
        · right
          have hcq := List.mem_singleton.mp h2
          have hx : c.x = x - q.2 * DX q.1 := by rw [hcq]
          have hy : c.y = y - q.2 * DY q.1 := by rw [hcq]
          rw [offBoardTest_iff] at hob
          rw [hx, hy]
          rcases DX_range q.1 with hdx | hdx <;> rcases DY_range q.1 with hdy | hdy | hdy <;>
            rw [hdx, hdy] at hob ⊢ <;> omega
      · exact Or.inr hb

theorem recordChanges_changes_bounds (bs : Nat) (dP x y : Int) (t : ShapeTable)
    (c : OnePointChange) (hc : c ∈ (recordChanges bs dP x y t).2) :
    x - 5 ≤ c.x ∧ c.x ≤ x + 5 ∧ y - 5 ≤ c.y ∧ c.y ≤ y + 5 ∧
      0 ≤ c.x ∧ c.x < (bs : Int) ∧ 0 ≤ c.y ∧ c.y < (bs : Int) := by
  have := shape_foldl_changes_mem bs dP x y changePoints
    (fun p hp => mem_changePoints_bounds p hp) t [] c hc
  rcases this with habs | hb
  · cases habs
  · exact hb

theorem off9_bounds : ∀ o ∈ off9, 0 ≤ o.1 ∧ o.1 ≤ 2 ∧ 0 ≤ o.2 ∧ o.2 ≤ 2 := by decide

/-- C3 (amended): in the MOVE path of `Mix8Accumulator::update` at
`(x, y)` the subtract/re-add value passes iterate exactly the cells of
`rectCells`, which is the rectangle
`[max(x-5,1), min(x+7,boardSize)] × [max(y-5,1), min(y+7,boardSize)]`
in outer coordinates (so the code's rectangle is centred at `±6` around
the outer image of `(x, y)` and clipped to `[1, boardSize]`, not the
spec's `[x-5, x+5]` clipped to the halo), and that rectangle contains
every board-image outer cell (halo ring excluded) whose 3×3 stencil
touches a `mapSum` cell changed by the update. -/
theorem conv_dirty_rectangle (boardSize : Nat) (x y : Int) :
    (∀ X Y : Int,
        (X, Y) ∈ rectCells boardSize x y ↔
          max (x - 5) 1 ≤ X ∧ X ≤ min (x + 7) (boardSize : Int) ∧
          max (y - 5) 1 ≤ Y ∧ Y ≤ min (y + 7) (boardSize : Int)) ∧
    (∀ (t : ShapeTable) (dP : Int) (X Y : Int),
        1 ≤ X → X ≤ (boardSize : Int) → 1 ≤ Y → Y ≤ (boardSize : Int) →
        (∃ c ∈ (recordChanges boardSize dP x y t).2, ∃ o ∈ off9,
            X = c.x + o.1 ∧ Y = c.y + o.2) →
        (X, Y) ∈ rectCells boardSize x y) := by
  constructor
  · intro X Y
    rw [mem_rectCells]
    unfold rectLo rectHi
    constructor
    · rintro ⟨h1, h2, h3, h4⟩
      refine ⟨?_, ?_, ?_, ?_⟩ <;> omega
    · rintro ⟨h1, h2, h3, h4⟩
      refine ⟨?_, ?_, ?_, ?_⟩ <;> omega
  · rintro t dP X Y hx1 hx2 hy1 hy2 ⟨c, hc, o, ho, hX, hY⟩
    have hcb := recordChanges_changes_bounds boardSize dP x y t c hc
    have hob := off9_bounds o ho
    rw [mem_rectCells]
    unfold rectLo rectHi
    refine ⟨?_, ?_, ?_, ?_⟩ <;> omega

/-- C3 counterexample: with `boardSize = 15` and the move at
`(5, 5)`, the outer cell `(12, 12)` is iterated by the code's
subtract/re-add passes (it is in `rectCells`) but lies outside the
spec's rectangle `[x-5, x+5] × [y-5, y+5]` clipped to the halo. -/
theorem conv_dirty_rectangle_counterexample :
    (12, 12) ∈ rectCells 15 5 5 ∧ ¬ specDirtyRect 15 5 5 12 12 := by
  constructor
  · decide
  · decide

/-! ## C4: move-cache cancellation -/

theorem cachePush_cancel (side : GColor) (x y : Int) (l : List MoveCacheEntry)
    (h : List.Chain' (fun a b => ¬(isContraryMove a b = true)) l) :
    cachePush (cachePush l ⟨GColor.EMPTY, side, x, y⟩) ⟨side, GColor.EMPTY, x, y⟩ = l := by
  have hcontr : isContraryMove ⟨side, GColor.EMPTY, x, y⟩ ⟨GColor.EMPTY, side, x, y⟩ = true := by
    simp [isContraryMove]
  cases l with
  | nil => simp [cachePush, hcontr]
  | cons b rest =>
    by_cases hcb : isContraryMove ⟨GColor.EMPTY, side, x, y⟩ b = true
    · have hb : b = ⟨side, GColor.EMPTY, x, y⟩ := by
        unfold isContraryMove at hcb
        rw [decide_eq_true_eq] at hcb
        obtain ⟨bo, bn, bx1, by1⟩ := b
        obtain ⟨e1, e2, e3, e4⟩ := hcb
        simp only [MoveCacheEntry.mk.injEq]
        exact ⟨e2.symm, e1.symm, e3.symm, e4.symm⟩
      subst hb
      rw [show cachePush (⟨side, GColor.EMPTY, x, y⟩ :: rest) ⟨GColor.EMPTY, side, x, y⟩
          = rest from by simp only [cachePush]; rw [if_pos hcb]]
      cases rest with
      | nil => rfl
      | cons b2 rest2 =>
        have hnc : ¬(isContraryMove ⟨side, GColor.EMPTY, x, y⟩ b2 = true) :=
          (List.chain'_cons.mp h).1
        simp only [cachePush]
        rw [if_neg hnc]
    · rw [show cachePush (b :: rest) ⟨GColor.EMPTY, side, x, y⟩
          = ⟨GColor.EMPTY, side, x, y⟩ :: b :: rest from by simp only [cachePush]; rw [if_neg hcb]]
      simp only [cachePush]
      rw [if_pos hcontr]

/-- C4: an `addCache` for a MOVE at `(x, y)` by a side followed by an
`addCache` for an UNDO at `(x, y)` by the same side (no intervening
`clearCache`) cancels in both side caches, provided each cache holds no
adjacent contrary pair (an invariant of caches built by `addCache`):
both caches are net unchanged, the next drain is the same as a drain of
the prior cache, and when the prior cache was empty the drain performs
no update at all — the accumulator and its snapshot history come back
untouched. -/
theorem move_cache_cancellation (side : GColor) (x y : Int)
    (l1 l2 : List MoveCacheEntry)
    (h1 : List.Chain' (fun a b => ¬(isContraryMove a b = true)) l1)
    (h2 : List.Chain' (fun a b => ¬(isContraryMove a b = true)) l2) :
    addCache side x y true (addCache side x y false (l1, l2)) = (l1, l2) ∧
    (∀ (w : Mix8WeightModel) (convDim featDim boardSize : Nat) (acc : Mix8AccState)
        (hist : List ValueSumType),
      clearCacheDrain w convDim featDim boardSize side
          (addCache side x y true (addCache side x y false (l1, l2))).1 acc hist =
        clearCacheDrain w convDim featDim boardSize side l1 acc hist) ∧
    (∀ (w : Mix8WeightModel) (convDim featDim boardSize : Nat) (acc : Mix8AccState)
        (hist : List ValueSumType),
      clearCacheDrain w convDim featDim boardSize side
          (addCache side x y true (addCache side x y false ([], []))).1 acc hist =
        (acc, hist)) := by
  have hfst : addCache side x y true (addCache side x y false (l1, l2)) =
      (cachePush (cachePush l1 ⟨GColor.EMPTY, side, x, y⟩) ⟨side, GColor.EMPTY, x, y⟩,
       cachePush (cachePush l2 ⟨GColor.EMPTY, side, x, y⟩) ⟨side, GColor.EMPTY, x, y⟩) := rfl
  have hmain : addCache side x y true (addCache side x y false (l1, l2)) = (l1, l2) := by
    rw [hfst, cachePush_cancel side x y l1 h1, cachePush_cancel side x y l2 h2]
  have hempty : addCache side x y true (addCache side x y false ([], []))
      = (([] : List MoveCacheEntry), ([] : List MoveCacheEntry)) := by
    rw [show addCache side x y true (addCache side x y false (([] : List MoveCacheEntry), ([] : List MoveCacheEntry))) =
        (cachePush (cachePush [] ⟨GColor.EMPTY, side, x, y⟩) ⟨side, GColor.EMPTY, x, y⟩,
         cachePush (cachePush [] ⟨GColor.EMPTY, side, x, y⟩) ⟨side, GColor.EMPTY, x, y⟩) from rfl]
    rw [cachePush_cancel side x y [] List.chain'_nil]
  refine ⟨hmain, ?_, ?_⟩
  · intro w convDim featDim boardSize acc hist
    rw [hmain]
  · intro w convDim featDim boardSize acc hist
    rw [hempty]
    rfl

/-- Witness for the C4 theorem at a concrete input: both caches empty
(the empty cache has no adjacent contrary pair), a BLACK move/undo pair
at `(3, 4)`: both caches come back empty. -/
theorem move_cache_cancellation_witness :
    addCache GColor.BLACK 3 4 true (addCache GColor.BLACK 3 4 false ([], [])) =
      (([] : List MoveCacheEntry), ([] : List MoveCacheEntry)) :=
  (move_cache_cancellation GColor.BLACK 3 4 [] [] List.chain'_nil List.chain'_nil).1

/-! ## C1: move/undo round trip -/

theorem applyChanges_nil (w : Mix8WeightModel) (cd fd : Nat) (isMove : Bool)
    (g : Int → Nat) (st : MapSumTable × ConvTable × ValueSumType) :
    applyChanges w cd fd isMove g [] st = st := rfl

theorem applyChanges_cons (w : Mix8WeightModel) (cd fd : Nat) (isMove : Bool)
    (g : Int → Nat) (c : OnePointChange) (cs : List OnePointChange)
    (st : MapSumTable × ConvTable × ValueSumType) :
    applyChanges w cd fd isMove g (c :: cs) st =
      applyChanges w cd fd isMove g cs (chainStep w cd fd isMove g st c) := rfl

theorem chainStep_ms_apply (w : Mix8WeightModel) (cd fd : Nat) (isMove : Bool)
    (g : Int → Nat) (st : MapSumTable × ConvTable × ValueSumType) (c : OnePointChange)
    (A B : Int) (ch : Nat) :
    (chainStep w cd fd isMove g st c).1 A B ch =
      if A = c.x ∧ B = c.y then
        add16 (sub16 (st.1 c.x c.y ch) (w.mapping c.oldShape ch)) (w.mapping c.newShape ch)
      else st.1 A B ch := rfl

theorem chainStep_cv_apply (w : Mix8WeightModel) (cd fd : Nat) (isMove : Bool)
    (g : Int → Nat) (st : MapSumTable × ConvTable × ValueSumType) (c : OnePointChange)
    (A B : Int) (ch : Nat) :
    (chainStep w cd fd isMove g st c).2.1 A B ch =
      if c.x ≤ A ∧ A ≤ c.x + 2 ∧ c.y ≤ B ∧ B ≤ c.y + 2 ∧ ch < cd then
        add16 (sub16 (st.2.1 A B ch)
            (mulhrs16 (prelu w (st.1 c.x c.y ch) ch)
              (w.feature_dwconv_weight ((8 - (B - c.y) * 3 - (A - c.x)).toNat) ch)))
          (mulhrs16
            (prelu w (add16 (sub16 (st.1 c.x c.y ch) (w.mapping c.oldShape ch))
                (w.mapping c.newShape ch)) ch)
            (w.feature_dwconv_weight ((8 - (B - c.y) * 3 - (A - c.x)).toNat) ch))
      else st.2.1 A B ch := rfl

theorem sum_map_congr_int {α : Type} (l : List α) (f g : α → Int)
    (h : ∀ o ∈ l, f o = g o) : (l.map f).sum = (l.map g).sum := by
  rw [List.map_congr_left h]

theorem sum_map_neg_int {α : Type} (l : List α) (f g : α → Int)
    (h : ∀ o ∈ l, f o = -g o) : (l.map f).sum = -(l.map g).sum := by
  induction l with
  | nil => simp
  | cons a l' ih =>
    rw [List.map_cons, List.map_cons, List.sum_cons, List.sum_cons,
        h a (List.mem_cons_self a l'), ih (fun o ho => h o (List.mem_cons_of_mem a ho))]
    ring

theorem sum_map_split {α : Type} (l : List α) (f g : α → Int) (o0 : α) (e : Int)
    (hmem : o0 ∈ l) (hnd : l.Nodup) (h0 : f o0 = g o0 + e)
    (hoth : ∀ o ∈ l, o ≠ o0 → f o = g o) :
    (l.map f).sum = (l.map g).sum + e := by
  induction l with
  | nil => cases hmem
  | cons a l' ih =>
    rw [List.map_cons, List.map_cons, List.sum_cons, List.sum_cons]
    rcases List.mem_cons.mp hmem with rfl | hmem'
    · rw [h0]
      have hcong : ∀ o ∈ l', f o = g o := by
        intro o ho
        have hne : o ≠ o0 := fun he => (List.nodup_cons.mp hnd).1 (he ▸ ho)
        exact hoth o (List.mem_cons_of_mem o0 ho) hne
      rw [sum_map_congr_int l' f g hcong]
      ring
    · have ha : a ≠ o0 := fun he => (List.nodup_cons.mp hnd).1 (he ▸ hmem')
      rw [hoth a (List.mem_cons_self a l') ha,
          ih hmem' (List.nodup_cons.mp hnd).2
            (fun o ho hne => hoth o (List.mem_cons_of_mem a ho) hne)]
      ring

theorem msDelta_map_swap (w : Mix8WeightModel) (cs : List OnePointChange)
    (X Y : Int) (ch : Nat) :
    msDelta w (cs.map swapChange) X Y ch = -msDelta w cs X Y ch := by
  induction cs with
  | nil => simp [msDelta]
  | cons c cs' ih =>
    rw [List.map_cons, msDelta, msDelta, ih]
    show (if c.x = X ∧ c.y = Y then
        (w.mapping c.oldShape ch).val - (w.mapping c.newShape ch).val else 0) +
        -msDelta w cs' X Y ch =
      -((if c.x = X ∧ c.y = Y then
        (w.mapping c.newShape ch).val - (w.mapping c.oldShape ch).val else 0) +
        msDelta w cs' X Y ch)
    by_cases hc : c.x = X ∧ c.y = Y
    · rw [if_pos hc, if_pos hc]; ring
    · rw [if_neg hc, if_neg hc]; ring

theorem msDelta_eq_zero (w : Mix8WeightModel) (cs : List OnePointChange)
    (X Y : Int) (ch : Nat) (h : cellIn cs X Y = false) : msDelta w cs X Y ch = 0 := by
  induction cs with
  | nil => rfl
  | cons c cs' ih =>
    unfold cellIn at h
    rw [List.any_cons] at h
    have h2 := Bool.or_eq_false_iff.mp h
    rw [msDelta, if_neg (of_decide_eq_false h2.1), zero_add]
    exact ih h2.2

theorem applyChanges_mapSum (w : Mix8WeightModel) (cd fd : Nat) (isMove : Bool)
    (g : Int → Nat) (cs : List OnePointChange) (st : MapSumTable × ConvTable × ValueSumType)
    (X Y : Int) (ch : Nat) :
    (applyChanges w cd fd isMove g cs st).1 X Y ch =
      wrap16 ((st.1 X Y ch).val + msDelta w cs X Y ch) := by
  induction cs generalizing st with
  | nil =>
    rw [applyChanges_nil, msDelta, add_zero, wrap16_val]
  | cons c cs' ih =>
    rw [applyChanges_cons, ih, msDelta, chainStep_ms_apply]
    by_cases hc : X = c.x ∧ Y = c.y
    · rw [if_pos hc, if_pos ⟨hc.1.symm, hc.2.symm⟩]
      obtain ⟨rfl, rfl⟩ := hc
      unfold add16 sub16
      rw [wrap16_add_left, add_assoc, wrap16_add_left]
      exact congrArg wrap16 (by ring)
    · rw [if_neg hc, if_neg (fun hcc => hc ⟨hcc.1.symm, hcc.2.symm⟩), zero_add]

theorem cast_delta_cancel (dP1 dP2 : Int) (hsum : dP1 + dP2 = 0) (n : Nat)
    (v : ZMod (2 ^ 32)) :
    v + ((dP1 * Power3 n : Int) : ZMod (2 ^ 32)) + ((dP2 * Power3 n : Int) : ZMod (2 ^ 32))
      = v := by
  rw [add_assoc, ← Int.cast_add]
  rw [show dP1 * Power3 n + dP2 * Power3 n = (dP1 + dP2) * Power3 n from by ring]
  rw [hsum, zero_mul, Int.cast_zero, add_zero]

theorem shape_foldl_frame_or (bs : Nat) (dP x y : Int) (ps : List (Fin 4 × Int))
    (t : ShapeTable) (acc : List OnePointChange) (X Y : Int) (d : Fin 4)
    (h : ∀ p ∈ ps,
        offBoardTest ((bs : Int) - 1) (x - p.2 * DX p.1) (y - p.2 * DY p.1) = true ∨
        ¬(X = x - p.2 * DX p.1 ∧ Y = y - p.2 * DY p.1 ∧ d = p.1)) :
    (ps.foldl (shapeStep bs dP x y) (t, acc)).1 X Y d = t X Y d := by
  induction ps generalizing t acc with
  | nil => rfl
  | cons q rest ih =>
    rw [List.foldl_cons]
    have hrest := fun p hp => h p (List.mem_cons_of_mem q hp)
    simp only [shapeStep]
    split
    · exact ih t acc hrest
    · rename_i hoff
      rcases h q (List.mem_cons_self q rest) with hob | hkey
      · exact absurd hob hoff
      · rw [ih _ _ hrest]
        exact updShape_apply_other t _ _ q.1 _ X Y d hkey

theorem recordChanges_table_inverse (bs : Nat) (dP1 dP2 x y : Int) (hsum : dP1 + dP2 = 0)
    (t : ShapeTable) :
    (recordChanges bs dP2 x y (recordChanges bs dP1 x y t).1).1 = t := by
  funext X Y d
  unfold recordChanges
  by_cases hk : ∃ p ∈ changePoints, X = x - p.2 * DX p.1 ∧ Y = y - p.2 * DY p.1 ∧ d = p.1 ∧
      offBoardTest ((bs : Int) - 1) (x - p.2 * DX p.1) (y - p.2 * DY p.1) = false
  · obtain ⟨p, hp, h1, h2, h3, hon⟩ := hk
    subst h1; subst h2; subst h3
    rw [shape_foldl_apply bs dP2 x y changePoints p hp (changePoints_pairwise x y) hon
        (changePoints.foldl (shapeStep bs dP1 x y) (t, [])).1 []]
    rw [shape_foldl_apply bs dP1 x y changePoints p hp (changePoints_pairwise x y) hon t []]
    exact cast_delta_cancel dP1 dP2 hsum (p.2 + 5).toNat _
  · push_neg at hk
    have hfr : ∀ p ∈ changePoints,
        offBoardTest ((bs : Int) - 1) (x - p.2 * DX p.1) (y - p.2 * DY p.1) = true ∨
        ¬(X = x - p.2 * DX p.1 ∧ Y = y - p.2 * DY p.1 ∧ d = p.1) := by
      intro p hp
      by_cases hkey : X = x - p.2 * DX p.1 ∧ Y = y - p.2 * DY p.1 ∧ d = p.1
      · left
        have hne := hk p hp hkey.1 hkey.2.1 hkey.2.2
        cases hob : offBoardTest ((bs : Int) - 1) (x - p.2 * DX p.1) (y - p.2 * DY p.1) with
        | true => rfl
        | false => exact absurd hob hne
      · right; exact hkey
    rw [shape_foldl_frame_or bs dP2 x y changePoints _ [] X Y d hfr,
        shape_foldl_frame_or bs dP1 x y changePoints t [] X Y d hfr]

theorem shape_foldl_changes (bs : Nat) (dP x y : Int) (ps : List (Fin 4 × Int))
    (hnd : List.Pairwise (fun a b => changeKey x y a ≠ changeKey x y b) ps)
    (t : ShapeTable) (acc : List OnePointChange) :
    (ps.foldl (shapeStep bs dP x y) (t, acc)).2 =
      acc ++ (ps.filter (fun p =>
          !offBoardTest ((bs : Int) - 1) (x - p.2 * DX p.1) (y - p.2 * DY p.1))).map
        (fun p =>
          ⟨x - p.2 * DX p.1, y - p.2 * DY p.1, p.1,
           t (x - p.2 * DX p.1) (y - p.2 * DY p.1) p.1,
           t (x - p.2 * DX p.1) (y - p.2 * DY p.1) p.1 +
             ((dP * Power3 (p.2 + 5).toNat : Int) : ZMod (2 ^ 32))⟩) := by
  induction ps generalizing t acc with
  | nil => simp
  | cons q rest ih =>
    rw [List.foldl_cons, List.filter_cons]
    simp only [shapeStep]
    cases hob : offBoardTest ((bs : Int) - 1) (x - q.2 * DX q.1) (y - q.2 * DY q.1) with
    | true =>
      rw [if_pos rfl]
      rw [if_neg (by decide)]
      exact ih (List.Pairwise.of_cons hnd) t acc
    | false =>
      rw [if_neg (by decide)]
      rw [if_pos (by decide)]
      rw [ih (List.Pairwise.of_cons hnd) _ _]
      rw [List.map_cons, List.append_assoc, List.singleton_append]
      have hcong := List.map_congr_left (l := rest.filter (fun p =>
          !offBoardTest ((bs : Int) - 1) (x - p.2 * DX p.1) (y - p.2 * DY p.1)))
        (f := fun p => (⟨x - p.2 * DX p.1, y - p.2 * DY p.1, p.1,
           updShape t (x - q.2 * DX q.1) (y - q.2 * DY q.1) q.1
             (t (x - q.2 * DX q.1) (y - q.2 * DY q.1) q.1 +
               ((dP * Power3 (q.2 + 5).toNat : Int) : ZMod (2 ^ 32)))
             (x - p.2 * DX p.1) (y - p.2 * DY p.1) p.1,
           updShape t (x - q.2 * DX q.1) (y - q.2 * DY q.1) q.1
             (t (x - q.2 * DX q.1) (y - q.2 * DY q.1) q.1 +
               ((dP * Power3 (q.2 + 5).toNat : Int) : ZMod (2 ^ 32)))
             (x - p.2 * DX p.1) (y - p.2 * DY p.1) p.1 +
             ((dP * Power3 (p.2 + 5).toNat : Int) : ZMod (2 ^ 32))⟩ : OnePointChange))
        (g := fun p => (⟨x - p.2 * DX p.1, y - p.2 * DY p.1, p.1,
           t (x - p.2 * DX p.1) (y - p.2 * DY p.1) p.1,
           t (x - p.2 * DX p.1) (y - p.2 * DY p.1) p.1 +
             ((dP * Power3 (p.2 + 5).toNat : Int) : ZMod (2 ^ 32))⟩ : OnePointChange))
      rw [hcong]
      intro p hp
      have hpr : p ∈ rest := List.mem_of_mem_filter hp
      have hne := List.rel_of_pairwise_cons hnd hpr
      have hkey : ¬(x - p.2 * DX p.1 = x - q.2 * DX q.1 ∧
          y - p.2 * DY p.1 = y - q.2 * DY q.1 ∧ p.1 = q.1) := by
        intro hc
        obtain ⟨h1, h2, h3⟩ := hc
        exact hne (by unfold changeKey; rw [← h1, ← h2, ← h3])
      rw [updShape_apply_other t _ _ q.1 _ _ _ p.1 hkey]

theorem recordChanges_changes (bs : Nat) (dP x y : Int) (t : ShapeTable) :
    (recordChanges bs dP x y t).2 = (changePoints.filter (fun p =>
        !offBoardTest ((bs : Int) - 1) (x - p.2 * DX p.1) (y - p.2 * DY p.1))).map
      (fun p => ⟨x - p.2 * DX p.1, y - p.2 * DY p.1, p.1,
         t (x - p.2 * DX p.1) (y - p.2 * DY p.1) p.1,
         t (x - p.2 * DX p.1) (y - p.2 * DY p.1) p.1 +
           ((dP * Power3 (p.2 + 5).toNat : Int) : ZMod (2 ^ 32))⟩) := by
  unfold recordChanges
  rw [shape_foldl_changes bs dP x y changePoints (changePoints_pairwise x y) t []]
  rw [List.nil_append]

theorem recordChanges_changes_swap (bs : Nat) (dP1 dP2 x y : Int) (hsum : dP1 + dP2 = 0)
    (t : ShapeTable) :
    (recordChanges bs dP2 x y (recordChanges bs dP1 x y t).1).2 =
      ((recordChanges bs dP1 x y t).2).map swapChange := by
  rw [recordChanges_changes bs dP2 x y _, recordChanges_changes bs dP1 x y t, List.map_map]
  apply List.map_congr_left
  intro p hp
  have hpc : p ∈ changePoints := List.mem_of_mem_filter hp
  have hpred := List.of_mem_filter hp
  have hon : offBoardTest ((bs : Int) - 1) (x - p.2 * DX p.1) (y - p.2 * DY p.1) = false := by
    cases hob : offBoardTest ((bs : Int) - 1) (x - p.2 * DX p.1) (y - p.2 * DY p.1) with
    | false => rfl
    | true =>
      rw [hob] at hpred
      exact absurd hpred (by simp)
  have htM : (recordChanges bs dP1 x y t).1 (x - p.2 * DX p.1) (y - p.2 * DY p.1) p.1 =
      t (x - p.2 * DX p.1) (y - p.2 * DY p.1) p.1 +
        ((dP1 * Power3 (p.2 + 5).toNat : Int) : ZMod (2 ^ 32)) := by
    unfold recordChanges
    exact shape_foldl_apply bs dP1 x y changePoints p hpc (changePoints_pairwise x y) hon t []
  simp only [Function.comp_apply]
  simp only [swapChange]
  simp only [OnePointChange.mk.injEq, eq_self_iff_true, true_and]
  refine ⟨?_, ?_⟩
  · exact htM
  · rw [htM]
    exact cast_delta_cancel dP1 dP2 hsum (p.2 + 5).toNat _

theorem off9_nodup : off9.Nodup := by decide

theorem mem_off9 (o1 o2 : Int) (h1 : 0 ≤ o1) (h2 : o1 ≤ 2) (h3 : 0 ≤ o2) (h4 : o2 ≤ 2) :
    (o1, o2) ∈ off9 := by
  unfold off9
  simp only [List.mem_cons, List.not_mem_nil, or_false, Prod.mk.injEq]
  omega

theorem off9_bounds_pair (o1 o2 : Int) (h : (o1, o2) ∈ off9) :
    0 ≤ o1 ∧ o1 ≤ 2 ∧ 0 ≤ o2 ∧ o2 ≤ 2 := off9_bounds (o1, o2) h

theorem cellIn_map_swap (cs : List OnePointChange) (X Y : Int) :
    cellIn (cs.map swapChange) X Y = cellIn cs X Y := by
  unfold cellIn
  rw [List.any_map]
  rfl

theorem convDelta_swap_neg (w : Mix8WeightModel) (ms ms' : MapSumTable)
    (cs : List OnePointChange) (X Y : Int) (ch : Nat) :
    convDelta w ms' ms (cs.map swapChange) X Y ch = -convDelta w ms ms' cs X Y ch := by
  unfold convDelta
  apply sum_map_neg_int
  intro o ho
  rw [cellIn_map_swap]
  by_cases hc : cellIn cs (X - o.1) (Y - o.2) = true
  · rw [if_pos hc, if_pos hc]; ring
  · rw [if_neg hc, if_neg hc]; ring

theorem applyChanges_conv_frame (w : Mix8WeightModel) (cd fd : Nat) (isMove : Bool)
    (g : Int → Nat) (cs : List OnePointChange) (st : MapSumTable × ConvTable × ValueSumType)
    (X Y : Int) (ch : Nat) (hch : ¬ ch < cd) :
    (applyChanges w cd fd isMove g cs st).2.1 X Y ch = st.2.1 X Y ch := by
  induction cs generalizing st with
  | nil => rw [applyChanges_nil]
  | cons c cs' ih =>
    rw [applyChanges_cons, ih, chainStep_cv_apply]
    rw [if_neg (fun hc => hch hc.2.2.2.2)]

theorem add16_sub16_wrap (a b c2 : I16) (d : Int) :
    wrap16 ((add16 (sub16 a b) c2).val + d) = wrap16 (a.val - b.val + c2.val + d) := by
  unfold add16 sub16
  rw [wrap16_add_left, add_assoc, wrap16_add_left]
  exact congrArg wrap16 (by ring)

theorem applyChanges_conv (w : Mix8WeightModel) (cd fd : Nat) (isMove : Bool)
    (g : Int → Nat) (cs : List OnePointChange) (st : MapSumTable × ConvTable × ValueSumType)
    (X Y : Int) (ch : Nat) (hch : ch < cd) :
    (applyChanges w cd fd isMove g cs st).2.1 X Y ch =
      wrap16 ((st.2.1 X Y ch).val +
        convDelta w st.1 (applyChanges w cd fd isMove g cs st).1 cs X Y ch) := by
  induction cs generalizing st with
  | nil =>
    rw [applyChanges_nil]
    have hz : convDelta w st.1 st.1 [] X Y ch = 0 := by
      unfold convDelta
      apply List.sum_eq_zero
      intro z hzz
      obtain ⟨o, ho, rfl⟩ := List.mem_map.mp hzz
      rw [show cellIn ([] : List OnePointChange) (X - o.1) (Y - o.2) = false from rfl]
      simp
    rw [hz, add_zero, wrap16_val]
  | cons c cs' ih =>
    rw [applyChanges_cons, ih]
    by_cases hhit : c.x ≤ X ∧ X ≤ c.x + 2 ∧ c.y ≤ Y ∧ Y ≤ c.y + 2
    · have hcv : (chainStep w cd fd isMove g st c).2.1 X Y ch =
          add16 (sub16 (st.2.1 X Y ch)
              (mulhrs16 (prelu w (st.1 c.x c.y ch) ch)
                (w.feature_dwconv_weight ((8 - (Y - c.y) * 3 - (X - c.x)).toNat) ch)))
            (mulhrs16
              (prelu w (add16 (sub16 (st.1 c.x c.y ch) (w.mapping c.oldShape ch))
                  (w.mapping c.newShape ch)) ch)
              (w.feature_dwconv_weight ((8 - (Y - c.y) * 3 - (X - c.x)).toNat) ch)) := by
        rw [chainStep_cv_apply]
        rw [if_pos ⟨hhit.1, hhit.2.1, hhit.2.2.1, hhit.2.2.2, hch⟩]
      have hmsat : (chainStep w cd fd isMove g st c).1 c.x c.y ch =
          add16 (sub16 (st.1 c.x c.y ch) (w.mapping c.oldShape ch))
            (w.mapping c.newShape ch) := by
        rw [chainStep_ms_apply]
        rw [if_pos ⟨rfl, rfl⟩]
      have ho0 : ((X - c.x, Y - c.y) : Int × Int) ∈ off9 :=
        mem_off9 _ _ (by omega) (by omega) (by omega) (by omega)
      have hsplit : convDelta w st.1
            (applyChanges w cd fd isMove g cs' (chainStep w cd fd isMove g st c)).1
            (c :: cs') X Y ch =
          convDelta w (chainStep w cd fd isMove g st c).1
            (applyChanges w cd fd isMove g cs' (chainStep w cd fd isMove g st c)).1
            cs' X Y ch +
          (stencilF w (add16 (sub16 (st.1 c.x c.y ch) (w.mapping c.oldShape ch))
              (w.mapping c.newShape ch)) (X - c.x) (Y - c.y) ch -
           stencilF w (st.1 c.x c.y ch) (X - c.x) (Y - c.y) ch) := by
        unfold convDelta
        refine sum_map_split _ _ _ ((X - c.x, Y - c.y) : Int × Int) _ ho0 off9_nodup ?_ ?_
        · simp only []
          have e1 : X - (X - c.x) = c.x := by ring
          have e2 : Y - (Y - c.y) = c.y := by ring
          rw [e1, e2]
          have hhead : cellIn (c :: cs') c.x c.y = true := by
            unfold cellIn
            rw [List.any_cons]
            simp
          rw [if_pos hhead]
          by_cases htail : cellIn cs' c.x c.y = true
          · rw [if_pos htail, hmsat]
            ring
          · rw [if_neg htail]
            have hms0 : (applyChanges w cd fd isMove g cs'
                  (chainStep w cd fd isMove g st c)).1 c.x c.y ch =
                (chainStep w cd fd isMove g st c).1 c.x c.y ch := by
              rw [applyChanges_mapSum w cd fd isMove g cs' _ c.x c.y ch]
              rw [msDelta_eq_zero w cs' c.x c.y ch (Bool.eq_false_iff.mpr htail)]
              rw [add_zero, wrap16_val]
            rw [hms0, hmsat]
            ring
        · intro o ho hneq
          obtain ⟨o1, o2⟩ := o
          have hb := off9_bounds_pair o1 o2 ho
          simp only []
          have hns : ¬(c.x = X - o1 ∧ c.y = Y - o2) := by
            intro hcc
            apply hneq
            rw [Prod.mk.injEq]
            constructor <;> omega
          have hcell : cellIn (c :: cs') (X - o1) (Y - o2) =
              cellIn cs' (X - o1) (Y - o2) := by
            unfold cellIn
            rw [List.any_cons, decide_eq_false hns, Bool.false_or]
          have hmsoth : (chainStep w cd fd isMove g st c).1 (X - o1) (Y - o2) ch =
              st.1 (X - o1) (Y - o2) ch := by
            rw [chainStep_ms_apply]
            rw [if_neg (fun hcc => hns ⟨hcc.1.symm, hcc.2.symm⟩)]
          rw [hcell, hmsoth]
      rw [hcv, hsplit]
      rw [add16_sub16_wrap]
      rw [show stencilF w (add16 (sub16 (st.1 c.x c.y ch) (w.mapping c.oldShape ch))
              (w.mapping c.newShape ch)) (X - c.x) (Y - c.y) ch =
          (mulhrs16
            (prelu w (add16 (sub16 (st.1 c.x c.y ch) (w.mapping c.oldShape ch))
                (w.mapping c.newShape ch)) ch)
            (w.feature_dwconv_weight ((8 - (Y - c.y) * 3 - (X - c.x)).toNat) ch)).val from rfl]
      rw [show stencilF w (st.1 c.x c.y ch) (X - c.x) (Y - c.y) ch =
          (mulhrs16 (prelu w (st.1 c.x c.y ch) ch)
            (w.feature_dwconv_weight ((8 - (Y - c.y) * 3 - (X - c.x)).toNat) ch)).val from rfl]
      exact congrArg wrap16 (by ring)
    · have hcv : (chainStep w cd fd isMove g st c).2.1 X Y ch = st.2.1 X Y ch := by
        rw [chainStep_cv_apply]
        rw [if_neg (fun hc => hhit ⟨hc.1, hc.2.1, hc.2.2.1, hc.2.2.2.1⟩)]
      have hcd2 : convDelta w st.1
            (applyChanges w cd fd isMove g cs' (chainStep w cd fd isMove g st c)).1
            (c :: cs') X Y ch =
          convDelta w (chainStep w cd fd isMove g st c).1
            (applyChanges w cd fd isMove g cs' (chainStep w cd fd isMove g st c)).1
            cs' X Y ch := by
        unfold convDelta
        apply sum_map_congr_int
        intro o ho
        obtain ⟨o1, o2⟩ := o
        have hb := off9_bounds_pair o1 o2 ho
        simp only []
        have hns : ¬(c.x = X - o1 ∧ c.y = Y - o2) := by
          intro hcc
          exact hhit ⟨by omega, by omega, by omega, by omega⟩
        have hcell : cellIn (c :: cs') (X - o1) (Y - o2) =
            cellIn cs' (X - o1) (Y - o2) := by
          unfold cellIn
          rw [List.any_cons, decide_eq_false hns, Bool.false_or]
        have hmsoth : (chainStep w cd fd isMove g st c).1 (X - o1) (Y - o2) ch =
            st.1 (X - o1) (Y - o2) ch := by
          rw [chainStep_ms_apply]
          rw [if_neg (fun hcc => hns ⟨hcc.1.symm, hcc.2.symm⟩)]
        rw [hcell, hmsoth]
      rw [hcv, hcd2]

theorem roundtrip_mapSum (w : Mix8WeightModel) (cd fd bs : Nat) (dP1 dP2 x y : Int)
    (hsum : dP1 + dP2 = 0) (t : ShapeTable) (g : Int → Nat) (i1 i2 : Bool)
    (ms0 : MapSumTable) (cv0 : ConvTable) (vs1 vs2 : ValueSumType) :
    (applyChanges w cd fd i2 g (recordChanges bs dP2 x y (recordChanges bs dP1 x y t).1).2
        ((applyChanges w cd fd i1 g (recordChanges bs dP1 x y t).2 (ms0, cv0, vs1)).1,
         (applyChanges w cd fd i1 g (recordChanges bs dP1 x y t).2 (ms0, cv0, vs1)).2.1,
         vs2)).1 = ms0 := by
  funext X Y ch
  rw [applyChanges_mapSum]
  simp only []
  rw [applyChanges_mapSum]
  simp only []
  rw [recordChanges_changes_swap bs dP1 dP2 x y hsum t]
  rw [msDelta_map_swap]
  rw [wrap16_add_left]
  have hz : (ms0 X Y ch).val + msDelta w (recordChanges bs dP1 x y t).2 X Y ch +
      -msDelta w (recordChanges bs dP1 x y t).2 X Y ch = (ms0 X Y ch).val := by ring
  rw [hz, wrap16_val]

theorem roundtrip_conv (w : Mix8WeightModel) (cd fd bs : Nat) (dP1 dP2 x y : Int)
    (hsum : dP1 + dP2 = 0) (t : ShapeTable) (g : Int → Nat) (i1 i2 : Bool)
    (ms0 : MapSumTable) (cv0 : ConvTable) (vs1 vs2 : ValueSumType) :
    (applyChanges w cd fd i2 g (recordChanges bs dP2 x y (recordChanges bs dP1 x y t).1).2
        ((applyChanges w cd fd i1 g (recordChanges bs dP1 x y t).2 (ms0, cv0, vs1)).1,
         (applyChanges w cd fd i1 g (recordChanges bs dP1 x y t).2 (ms0, cv0, vs1)).2.1,
         vs2)).2.1 = cv0 := by
  have hms := roundtrip_mapSum w cd fd bs dP1 dP2 x y hsum t g i1 i2 ms0 cv0 vs1 vs2
  funext X Y ch
  by_cases hch : ch < cd
  · rw [applyChanges_conv w cd fd i2 g _ _ X Y ch hch]
    rw [hms]
    simp only []
    rw [applyChanges_conv w cd fd i1 g _ _ X Y ch hch]
    simp only []
    rw [recordChanges_changes_swap bs dP1 dP2 x y hsum t]
    rw [convDelta_swap_neg]
    rw [wrap16_add_left]
    have hz : (cv0 X Y ch).val +
        convDelta w ms0 (applyChanges w cd fd i1 g (recordChanges bs dP1 x y t).2
          (ms0, cv0, vs1)).1 (recordChanges bs dP1 x y t).2 X Y ch +
        -convDelta w ms0 (applyChanges w cd fd i1 g (recordChanges bs dP1 x y t).2
          (ms0, cv0, vs1)).1 (recordChanges bs dP1 x y t).2 X Y ch = (cv0 X Y ch).val := by
      ring
    rw [hz, wrap16_val]
  · rw [applyChanges_conv_frame w cd fd i2 g _ _ X Y ch hch]
    simp only []
    rw [applyChanges_conv_frame w cd fd i1 g _ _ X Y ch hch]

theorem mix8AccState_ext (a b : Mix8AccState)
    (h1 : a.indexTable = b.indexTable) (h2 : a.mapSum = b.mapSum)
    (h3 : a.mapAfterDWConv = b.mapAfterDWConv) (h4 : a.valueSum = b.valueSum) : a = b := by
  cases a
  cases b
  simp only [Mix8AccState.mk.injEq]
  exact ⟨h1, h2, h3, h4⟩

theorem updateMove_updateUndo (w : Mix8WeightModel) (cd fd bs : Nat)
    (c x y : Int) (a : Mix8AccState) :
    (a.updateMove w cd fd bs c x y).updateUndo w cd fd bs c x y a.valueSum = a := by
  apply mix8AccState_ext
  · exact recordChanges_table_inverse bs (c + 1) (-1 - c) x y (by ring) a.indexTable
  · exact roundtrip_mapSum w cd fd bs (c + 1) (-1 - c) x y (by ring) a.indexTable
      (groupIndex bs) true false a.mapSum a.mapAfterDWConv
      (rectPass true bs cd x y a.mapAfterDWConv a.valueSum) _
  · exact roundtrip_conv w cd fd bs (c + 1) (-1 - c) x y (by ring) a.indexTable
      (groupIndex bs) true false a.mapSum a.mapAfterDWConv
      (rectPass true bs cd x y a.mapAfterDWConv a.valueSum) _
  · rfl

theorem moveStep_undoStep (w : Mix8WeightModel) (cd fd bs : Nat)
    (m : GColor × Int × Int) (st : Mix8AccState × List ValueSumType) :
    undoStep w cd fd bs (moveStep w cd fd bs st m) m = st := by
  obtain ⟨a, hist⟩ := st
  unfold moveStep undoStep
  simp only [List.headI, List.tail]
  rw [updateMove_updateUndo]

theorem undoMoves_playMoves (w : Mix8WeightModel) (cd fd bs : Nat)
    (ms : List (GColor × Int × Int)) (st : Mix8AccState × List ValueSumType) :
    undoMoves w cd fd bs ms (playMoves w cd fd bs ms st) = st := by
  induction ms generalizing st with
  | nil => rfl
  | cons m ms' ih =>
    unfold playMoves undoMoves
    rw [List.foldl_cons, List.reverse_cons, List.foldl_append]
    have h1 : (playMoves w cd fd bs ms' (moveStep w cd fd bs st m)) =
        List.foldl (moveStep w cd fd bs) (moveStep w cd fd bs st m) ms' := rfl
    have h2 := ih (moveStep w cd fd bs st m)
    unfold playMoves undoMoves at h2
    rw [h2, List.foldl_cons, List.foldl_nil]
    exact moveStep_undoStep w cd fd bs m st

/-- C1: for every sequence of moves applied to a freshly cleared
`Mix8Accumulator` via `update<MOVE>` (the `valueSum` snapshot pushed
before each move, as `clearCache` does), followed by the matching
`update<UNDO>` calls in reverse order (each restoring its snapshot), the
accumulator's entire state — `indexTable`, `mapSum`, `mapAfterDWConv`
and `valueSum` — and the snapshot stack are bit-for-bit the state
produced by a fresh `clear()` with the same weight. -/
theorem accumulator_move_undo_roundtrip (w : Mix8WeightModel) (cd fd bs : Nat)
    (ms : List (GColor × Int × Int)) :
    undoMoves w cd fd bs ms (playMoves w cd fd bs ms
        (Mix8AccState.clear w cd fd bs, [])) =
      (Mix8AccState.clear w cd fd bs, []) :=
  undoMoves_playMoves w cd fd bs ms (Mix8AccState.clear w cd fd bs, [])
